import Mathlib

/-!
# HTTP request context (`transport/http/context.go`)

A shallow embedding of the request context of the HTTP transport: the response
buffer `responseWriter`, the context `wrapper`, its write operations and the
free function `SetStatusCode`.

Conventions of the embedding.

* Go pointers are replaced by explicit state passing. The underlying
  `http.ResponseWriter` (the *sink*) is an external object: it is referred to by
  a `SinkId`, and every call the code makes on a sink is appended to the
  `trace` of the `World`. What a sink answers to `Write` is given by the
  `sinkWrite` field of the world, as a function of the calls made so far.
* A nil pointer or nil interface is `none`; a call through it panics, which is
  the outer `none` of the result of an operation.
* Collaborators that receive the response buffer (the configured encoder, the
  JSON and XML encoders of the standard library, `io.Copy`) are programs over
  the interface they are handed: `RespProg` for `http.ResponseWriter`,
  `WriterProg` for `io.Writer`.
* The trace also records each invocation of the configured encoder, so that
  "the encoder is invoked" is an observable fact.
* `Middleware`, `Bind`, `BindVars`, `BindQuery` and `BindForm` only delegate to
  other packages and are not embedded.
-/

namespace KratosHttp

/-! ## Values of the Go runtime -/

/-- A Go `string`. -/
abbrev GoString := String

/-- A Go `[]byte`. -/
abbrev Bytes := List UInt8

/-- A Go `error` value (non-nil). The nil error is `none : Option GoError`. -/
structure GoError where
  msg : GoString
deriving DecidableEq, Repr

/-- A Go `interface{}` value handed to an encoder or used as a context key. -/
inductive GoValue where
  | null
  | int (i : Int)
  | str (s : GoString)
  | bytes (b : Bytes)
deriving DecidableEq, Repr

/-- The type `url.Values`, `map[string][]string`, as an association list. -/
abbrev Values := List (GoString × List GoString)

/-- The value `url.Values{}`: a mapping without keys. -/
def Values.empty : Values := []

/-- A `time.Time`; `GoTime.zero` is the zero value `time.Time{}`. -/
structure GoTime where
  nanos : Int
deriving DecidableEq, Repr

/-- The zero value `time.Time{}`. -/
def GoTime.zero : GoTime := ⟨0⟩

/-- The constant `http.StatusOK`. -/
def StatusOK : Int := 200

/-- The error `context.Canceled`. -/
def Canceled : GoError := ⟨"context canceled"⟩

/-- Identity of a channel; the nil channel is `none : Option ChanId`. -/
abbrev ChanId := Nat

/-- What a `context.Context` answers to its four methods. -/
structure ContextIface where
  Deadline : GoTime × Bool
  Done : Option ChanId
  Err : Option GoError
  values : List (GoValue × GoValue)
deriving DecidableEq, Repr

/-- The method `Value(key)` of a `context.Context`: `none` is the nil interface. -/
def ContextIface.Value (ctx : ContextIface) (key : GoValue) : Option GoValue :=
  ctx.values.lookup key

/-- The part of `*http.Request` that the context reads. `Context` is what
`req.Context()` returns, `URLQuery` what `req.URL.Query()` returns, `muxVars`
what `mux.Vars(req)` returns and `Form` the field `req.Form`. -/
structure Request where
  Header : Values
  URLQuery : Values
  Form : Values
  muxVars : List (GoString × GoString)
  Context : ContextIface
deriving DecidableEq, Repr

/-! ## Sinks and the world outside the context -/

/-- Identity of an underlying `http.ResponseWriter`. -/
abbrev SinkId := Nat

/-- A call made on an external object. The first three are the calls on a
sink: `Header().Set(key, value)`, `WriteHeader(statusCode)` and `Write(data)`;
`encode` records an invocation of the configured encoder `router.srv.enc` with
the request and value it was given. -/
inductive Event where
  | headerSet (sink : SinkId) (key value : GoString)
  | writeHeader (sink : SinkId) (statusCode : Int)
  | write (sink : SinkId) (data : Bytes)
  | encode (req : Option Request) (v : GoValue)
deriving DecidableEq, Repr

/-- Whether the event is a status-line write on some sink. -/
def Event.isWriteHeader : Event → Bool
  | .writeHeader _ _ => true
  | _ => false

/-- Whether the event is a body write on some sink. -/
def Event.isWrite : Event → Bool
  | .write _ _ => true
  | _ => false

/-- Whether the event is an invocation of the configured encoder. -/
def Event.isEncode : Event → Bool
  | .encode _ _ => true
  | _ => false

/-- The world outside the context: the calls made so far, in order, and the
answer `(n, err)` of each sink to a `Write`, which may depend on every call
made before it. -/
structure World where
  trace : List Event
  sinkWrite : SinkId → List Event → Bytes → Int × Option GoError

/-- The world after one more call. -/
def World.log (world : World) (e : Event) : World :=
  { world with trace := world.trace ++ [e] }

/-! ## Programs over the interfaces handed to collaborators -/

/-- A client of an `io.Writer`: it calls `Write` any number of times, each time
continuing according to the result `(n, err)`, and returns an error or nil. -/
inductive WriterProg where
  | ret (err : Option GoError)
  | write (data : Bytes) (next : Int × Option GoError → WriterProg)

/-- A client of an `http.ResponseWriter`: besides `Write` it may set a header
through `Header().Set` and call `WriteHeader`. -/
inductive RespProg where
  | ret (err : Option GoError)
  | headerSet (key value : GoString) (next : RespProg)
  | writeHeader (statusCode : Int) (next : RespProg)
  | write (data : Bytes) (next : Int × Option GoError → RespProg)

/-! ## The response buffer -/

/-- The struct `responseWriter`: the pending status code and the sink. -/
structure responseWriter where
  code : Int
  w : Option SinkId
deriving DecidableEq, Repr

/-- The method `rest`: `w.w = res; w.code = http.StatusOK`. -/
def responseWriter.rest (w : responseWriter) (res : Option SinkId) : responseWriter :=
  { w with w := res, code := StatusOK }

/-- The method `Header()` followed by `Set(key, value)` on the map it returns:
`w.w.Header()` is the header map of the sink. -/
def responseWriter.headerSet (w : responseWriter) (world : World) (key value : GoString) :
    Option World :=
  match w.w with
  | none => none
  | some sink => some (world.log (.headerSet sink key value))

/-- The method `WriteHeader`: `w.code = statusCode`. -/
def responseWriter.WriteHeader (w : responseWriter) (statusCode : Int) : responseWriter :=
  { w with code := statusCode }

/-- The method `Write`: `w.w.WriteHeader(w.code); return w.w.Write(data)`. -/
def responseWriter.Write (w : responseWriter) (world : World) (data : Bytes) :
    Option ((Int × Option GoError) × World) :=
  match w.w with
  | none => none
  | some sink =>
    let world1 := world.log (.writeHeader sink w.code)
    let res := world1.sinkWrite sink world1.trace data
    some (res, world1.log (.write sink data))

/-- Running a client of `io.Writer` against the response buffer. -/
def WriterProg.run : WriterProg → responseWriter → World → Option (Option GoError × World)
  | .ret err, _, world => some (err, world)
  | .write data next, w, world =>
    match w.Write world data with
    | none => none
    | some (res, world1) => (next res).run w world1

/-- Running a client of `http.ResponseWriter` against the response buffer. -/
def RespProg.run : RespProg → responseWriter → World →
    Option (Option GoError × responseWriter × World)
  | .ret err, w, world => some (err, w, world)
  | .headerSet key value next, w, world =>
    match w.headerSet world key value with
    | none => none
    | some world1 => next.run w world1
  | .writeHeader statusCode next, w, world => next.run (w.WriteHeader statusCode) world
  | .write data next, w, world =>
    match w.Write world data with
    | none => none
    | some (res, world1) => (next res).run w world1

/-! ## `io.Copy` -/

/-- The error `io.EOF`. -/
def EOF : GoError := ⟨"EOF"⟩

/-- The error `io.ErrShortWrite`. -/
def ErrShortWrite : GoError := ⟨"short write"⟩

/-- The error `io.errInvalidWrite`. -/
def errInvalidWrite : GoError := ⟨"invalid write result"⟩

/-- An `io.Reader` with a finite script: the successive results `(buf[0:nr], er)`
of its `Read` calls; once the script is used up `Read` returns `(0, io.EOF)`.
When the reader also implements `io.WriterTo`, `writeTo` is its method
`WriteTo(w)` as a client of the writer `w`; otherwise it is `none`. -/
structure Reader where
  reads : List (Bytes × Option GoError)
  writeTo : Option WriterProg

/-- The read loop of `io.Copy` of the standard library, as a client of the
destination writer: every non-empty read is written once; a write error, an
invalid or a short write, or a read error ends the copy, and `io.EOF` ends it
with a nil error. -/
def copyLoop : List (Bytes × Option GoError) → WriterProg
  | [] => .ret none
  | (buf, er) :: rest =>
    let afterRead : WriterProg :=
      match er with
      | some e => .ret (if e = EOF then none else some e)
      | none => copyLoop rest
    if 0 < buf.length then
      .write buf (fun res =>
        let invalid : Bool := decide (res.1 < 0) || decide ((buf.length : Int) < res.1)
        let nw : Int := if invalid then 0 else res.1
        let ew : Option GoError :=
          if invalid then (match res.2 with
            | none => some errInvalidWrite
            | some e => some e) else res.2
        match ew with
        | some e => .ret (some e)
        | none => if (buf.length : Int) ≠ nw then .ret (some ErrShortWrite) else afterRead)
    else afterRead

/-- The call `io.Copy(dst, rd)` seen from `dst`: when the reader has a method
`WriteTo`, `io.Copy` returns `rd.WriteTo(dst)`; otherwise it runs its read
loop. The destination here is the response buffer, which has no method
`ReadFrom`, so that `io.Copy` never hands the copy to the destination. -/
def ioCopy (rd : Reader) : WriterProg :=
  match rd.writeTo with
  | some wt => wt
  | none => copyLoop rd.reads

/-! ## The context -/

/-- A closure of type `customerOperation`, defunctionalised. The only closure
the package builds is the one of `SetStatusCode`, which captures `code`. -/
inductive customerOperation where
  | statusOverride (code : Int)
deriving DecidableEq, Repr

/-- The field `srv` of the router, with the configured response encoder
`enc(w, req, v)` as a client of the `http.ResponseWriter` it is handed. -/
structure Server where
  enc : Option Request → GoValue → RespProg

/-- The struct `Router`, reduced to the server it belongs to. -/
structure Router where
  srv : Server

/-- The struct `wrapper`. -/
structure wrapper where
  router : Router
  req : Option Request
  w : responseWriter
  customerOperations : List customerOperation

/-- Calling a queued closure on the context: `w2.w.WriteHeader(code)`. -/
def customerOperation.run : customerOperation → wrapper → wrapper
  | .statusOverride code, c => { c with w := c.w.WriteHeader code }

/-- The loop shared by the write operations:
`for _, opt := range c.customerOperations { opt(c) }`; the test
`len(c.customerOperations) != 0` around it only skips the loop over an empty
queue. -/
def wrapper.applyCustomerOperations (c : wrapper) : wrapper :=
  c.customerOperations.foldl (fun c1 opt => opt.run c1) c

/-- The bytes `[]byte(text)`. -/
def bytesOf (text : GoString) : Bytes := text.toUTF8.data.toList

/-- The method `Header`: `c.req.Header`. -/
def wrapper.Header (c : wrapper) : Option Values :=
  match c.req with
  | none => none
  | some r => some r.Header

/-- Assignment `m[k] = v` on a `url.Values`. -/
def Values.set (m : Values) (k : GoString) (v : List GoString) : Values :=
  (k, v) :: m.filter (fun p => p.1 ≠ k)

/-- The method `Vars`. -/
def wrapper.Vars (c : wrapper) : Option Values :=
  match c.req with
  | none => none
  | some r => some (r.muxVars.foldl (fun vars kv => vars.set kv.1 [kv.2]) Values.empty)

/-- The method `Form`. `ParseForm` is the method `(*http.Request).ParseForm` of
the standard library: it returns the request as it leaves it and its error. -/
def wrapper.Form (ParseForm : Request → Request × Option GoError) (c : wrapper) :
    Option (Values × wrapper) :=
  match c.req with
  | none => none
  | some r =>
    match ParseForm r with
    | (r1, some _) => some (Values.empty, { c with req := some r1 })
    | (r1, none) => some (r1.Form, { c with req := some r1 })

/-- The method `Query`: `c.req.URL.Query()`. -/
def wrapper.Query (c : wrapper) : Option Values :=
  match c.req with
  | none => none
  | some r => some r.URLQuery

/-- The method `Request`. -/
def wrapper.Request (c : wrapper) : Option Request := c.req

/-- The method `Response`. -/
def wrapper.Response (c : wrapper) : Option SinkId := c.w.w

/-- The method `Returns`. -/
def wrapper.Returns (c : wrapper) (world : World) (v : GoValue) (err : Option GoError) :
    Option (Option GoError × wrapper × World) :=
  match err with
  | some e => some (some e, c, world)
  | none =>
    match (c.router.srv.enc c.req v).run c.w (world.log (.encode c.req v)) with
    | none => none
    | some (res, w1, world1) => some (res, { c with w := w1 }, world1)

/-- The method `Result`. -/
def wrapper.Result (c : wrapper) (world : World) (code : Int) (v : GoValue) :
    Option (Option GoError × wrapper × World) :=
  let c1 : wrapper := { c with w := c.w.WriteHeader code }
  let c2 := c1.applyCustomerOperations
  match (c2.router.srv.enc c2.req v).run c2.w (world.log (.encode c2.req v)) with
  | none => none
  | some (res, w1, world1) => some (res, { c2 with w := w1 }, world1)

/-- The method `JSON`. `jsonEncode v` is `json.NewEncoder(w).Encode(v)` of the
standard library as a client of the writer `w`. -/
def wrapper.JSON (jsonEncode : GoValue → WriterProg) (c : wrapper) (world : World)
    (code : Int) (v : GoValue) : Option (Option GoError × wrapper × World) :=
  match c.w.headerSet world "Content-Type" "application/json" with
  | none => none
  | some world1 =>
    let c1 : wrapper := { c with w := c.w.WriteHeader code }
    let c2 := c1.applyCustomerOperations
    match (jsonEncode v).run c2.w world1 with
    | none => none
    | some (res, world2) => some (res, c2, world2)

/-- The method `XML`. `xmlEncode v` is `xml.NewEncoder(w).Encode(v)` of the
standard library as a client of the writer `w`. -/
def wrapper.XML (xmlEncode : GoValue → WriterProg) (c : wrapper) (world : World)
    (code : Int) (v : GoValue) : Option (Option GoError × wrapper × World) :=
  match c.w.headerSet world "Content-Type" "application/xml" with
  | none => none
  | some world1 =>
    let c1 : wrapper := { c with w := c.w.WriteHeader code }
    let c2 := c1.applyCustomerOperations
    match (xmlEncode v).run c2.w world1 with
    | none => none
    | some (res, world2) => some (res, c2, world2)

/-- The method `Blob`. -/
def wrapper.Blob (c : wrapper) (world : World) (code : Int) (contentType : GoString)
    (data : Bytes) : Option (Option GoError × wrapper × World) :=
  match c.w.headerSet world "Content-Type" contentType with
  | none => none
  | some world1 =>
    let c1 : wrapper := { c with w := c.w.WriteHeader code }
    let c2 := c1.applyCustomerOperations
    match c2.w.Write world1 data with
    | none => none
    | some ((_, some err), world2) => some (some err, c2, world2)
    | some ((_, none), world2) => some (none, c2, world2)

/-- The method `Stream`. -/
def wrapper.Stream (c : wrapper) (world : World) (code : Int) (contentType : GoString)
    (rd : Reader) : Option (Option GoError × wrapper × World) :=
  match c.w.headerSet world "Content-Type" contentType with
  | none => none
  | some world1 =>
    let c1 : wrapper := { c with w := c.w.WriteHeader code }
    let c2 := c1.applyCustomerOperations
    match (ioCopy rd).run c2.w world1 with
    | none => none
    | some (err, world2) => some (err, c2, world2)

/-- The method `String`. -/
def wrapper.String (c : wrapper) (world : World) (code : Int) (text : GoString) :
    Option (Option GoError × wrapper × World) :=
  match c.w.headerSet world "Content-Type" "text/plain" with
  | none => none
  | some world1 =>
    let c1 : wrapper := { c with w := c.w.WriteHeader code }
    let c2 := c1.applyCustomerOperations
    match c2.w.Write world1 (bytesOf text) with
    | none => none
    | some ((_, some err), world2) => some (some err, c2, world2)
    | some ((_, none), world2) => some (none, c2, world2)

/-- The method `Reset`. -/
def wrapper.Reset (c : wrapper) (world : World) (res : Option SinkId)
    (req : Option KratosHttp.Request) :
    wrapper × World :=
  ({ c with w := c.w.rest res, req := req, customerOperations := [] }, world)

/-- The method `Deadline`. -/
def wrapper.Deadline (c : wrapper) : GoTime × Bool :=
  match c.req with
  | none => (GoTime.zero, false)
  | some r => r.Context.Deadline

/-- The method `Done`. -/
def wrapper.Done (c : wrapper) : Option ChanId :=
  match c.req with
  | none => none
  | some r => r.Context.Done

/-- The method `Err`. -/
def wrapper.Err (c : wrapper) : Option GoError :=
  match c.req with
  | none => some Canceled
  | some r => r.Context.Err

/-- The method `Value`. -/
def wrapper.Value (c : wrapper) (key : GoValue) : Option GoValue :=
  match c.req with
  | none => none
  | some r => r.Context.Value key

/-- A value of interface type `context.Context`: the context of this package,
the background context, or a context derived from a parent by
`context.WithValue`. -/
inductive GoContext where
  | wrapperCtx (c : wrapper)
  | background
  | valueCtx (parent : GoContext) (key val : GoValue)

/-- The function `SetStatusCode`: when `ctx` is a `*wrapper` it appends the
closure to the queue of that wrapper, otherwise it does nothing. -/
def SetStatusCode (ctx : GoContext) (world : World) (code : Int) : GoContext × World :=
  match ctx with
  | .wrapperCtx w =>
    (.wrapperCtx { w with customerOperations := w.customerOperations ++ [.statusOverride code] },
      world)
  | other => (other, world)


/-! ## Uniform view of the write operations -/

/-- The arguments, other than the status code, of one of the six write
operations `Result`, `JSON`, `XML`, `String`, `Blob` and `Stream`. -/
inductive WriteOp where
  | Result (v : GoValue)
  | JSON (v : GoValue)
  | XML (v : GoValue)
  | String (text : GoString)
  | Blob (contentType : GoString) (data : Bytes)
  | Stream (contentType : GoString) (rd : Reader)

/-- Calling the write operation `op` with status code `code` on the context. -/
def wrapper.perform (jsonEncode xmlEncode : GoValue → WriterProg) (c : wrapper)
    (world : World) (code : Int) : WriteOp → Option (Option GoError × wrapper × World)
  | .Result v => c.Result world code v
  | .JSON v => c.JSON jsonEncode world code v
  | .XML v => c.XML xmlEncode world code v
  | .String text => c.String world code text
  | .Blob contentType data => c.Blob world code contentType data
  | .Stream contentType rd => c.Stream world code contentType rd

/-- Calling `SetStatusCode(ctx, code)` for each code of `codes`, in order. -/
def setStatusCodes (ctx : GoContext) (world : World) (codes : List Int) : GoContext × World :=
  codes.foldl (fun st code => SetStatusCode st.1 st.2 code) (ctx, world)

/-- A call on the response buffer by its client. -/
inductive BufferCall where
  | WriteHeader (statusCode : Int)
  | Write (data : Bytes)
deriving DecidableEq, Repr

/-- Whether the call on the buffer is a `Write`. -/
def BufferCall.isWrite : BufferCall → Bool
  | .Write _ => true
  | .WriteHeader _ => false

/-- Making the calls of `calls` on the response buffer, in order. -/
def responseWriter.calls (w : responseWriter) (world : World) :
    List BufferCall → Option (responseWriter × World)
  | [] => some (w, world)
  | .WriteHeader statusCode :: rest => (w.WriteHeader statusCode).calls world rest
  | .Write data :: rest =>
    match w.Write world data with
    | none => none
    | some (_, world1) => w.calls world1 rest

/-- The status-line writes and body writes among the events. -/
def statusAndBody (evs : List Event) : List Event :=
  evs.filter (fun e => e.isWriteHeader || e.isWrite)

/-- The status codes of the status-line writes received by `sink`, in order. -/
def statusCodes (sink : SinkId) : List Event → List Int
  | [] => []
  | .writeHeader s code :: rest =>
    if s = sink then code :: statusCodes sink rest else statusCodes sink rest
  | _ :: rest => statusCodes sink rest

/-- The encoder contract of the interface section: the encoder sets headers and
writes the body, and does not call `WriteHeader` on the buffer before its first
`Write`. -/
def RespProg.keepsStatus : RespProg → Prop
  | .ret _ => True
  | .headerSet _ _ next => next.keepsStatus
  | .writeHeader _ _ => False
  | .write _ _ => True

/-! ## Vocabulary of the statements -/

/-- The world after the further calls `evs`. -/
def World.extend (world : World) (evs : List Event) : World :=
  { world with trace := world.trace ++ evs }

/-- The status code captured by a queued closure. -/
def customerOperation.code : customerOperation → Int
  | .statusOverride code => code

/-- Among the calls `evs`, the first body write on `sink` comes right after the
status-line write `WriteHeader(code)` on `sink`, and no status-line or body
write comes before them. -/
def FirstWriteCarries (sink : SinkId) (code : Int) (evs : List Event) : Prop :=
  ∃ pre data post, evs = pre ++ Event.writeHeader sink code :: Event.write sink data :: post ∧
    statusAndBody pre = []


/-- The encoder contract as far as the operation `op` depends on it: only
`Result` calls the configured encoder `enc`. -/
def WriteOp.encoderKeepsStatus (enc : Option Request → GoValue → RespProg)
    (req : Option Request) : WriteOp → Prop
  | .Result v => (enc req v).keepsStatus
  | _ => True

/-- The pending status code once a write operation called with `code` has
replayed the queue `q`: the last element of `code :: codes of q`. -/
def finalCode (code : Int) (q : List customerOperation) : Int :=
  (code :: q.map customerOperation.code).getLast (List.cons_ne_nil _ _)


/-- A call of handler code on the context. -/
inductive Call where
  | SetStatusCode (code : Int)
  | write (code : Int) (op : WriteOp)
  | Returns (v : GoValue) (err : Option GoError)
  | Reset (res : Option SinkId) (req : Option Request)

/-- Whether the call is a `Reset`. -/
def Call.isReset : Call → Bool
  | .Reset _ _ => true
  | _ => false

/-- The closures that the calls queue, in order. -/
def Call.overrides : List Call → List customerOperation
  | [] => []
  | .SetStatusCode code :: rest => customerOperation.statusOverride code :: Call.overrides rest
  | _ :: rest => Call.overrides rest

/-- Making one call on the context; for `SetStatusCode` the context is passed
as the `context.Context` argument. -/
def wrapper.call (jsonEncode xmlEncode : GoValue → WriterProg) (c : wrapper) (world : World) :
    Call → Option (wrapper × World)
  | .SetStatusCode code =>
    match SetStatusCode (.wrapperCtx c) world code with
    | (.wrapperCtx c1, world1) => some (c1, world1)
    | _ => none
  | .write code op => (c.perform jsonEncode xmlEncode world code op).map fun r => r.2
  | .Returns v err => (c.Returns world v err).map fun r => r.2
  | .Reset res req => some (c.Reset world res req)

/-- Making the calls of a history on the context, in order. -/
def wrapper.calls (jsonEncode xmlEncode : GoValue → WriterProg) (c : wrapper) (world : World) :
    List Call → Option (wrapper × World)
  | [] => some (c, world)
  | call :: rest =>
    match c.call jsonEncode xmlEncode world call with
    | none => none
    | some (c1, world1) => c1.calls jsonEncode xmlEncode world1 rest

/-- The calls a sink receives from the calls `calls` on a buffer whose pending
status is `code`: each `Write` arrives as the pending status and the data. -/
def bufferEvents (sink : SinkId) (code : Int) : List BufferCall → List Event
  | [] => []
  | .WriteHeader statusCode :: rest => bufferEvents sink statusCode rest
  | .Write data :: rest =>
    Event.writeHeader sink code :: Event.write sink data :: bufferEvents sink code rest


/-- The bytes that a reader with the script `reads` delivers before it ends:
the data of its reads up to and including the first read that returns an
error. -/
def readerInput : List (Bytes × Option GoError) → Bytes
  | [] => []
  | (buf, none) :: rest => buf ++ readerInput rest
  | (buf, some _) :: _ => buf

/-- The reader with the script `reads` ends with `io.EOF`: no read returns
another error before. -/
def readsToEOF : List (Bytes × Option GoError) → Prop
  | [] => True
  | (_, none) :: rest => readsToEOF rest
  | (_, some e) :: _ => e = EOF

/-- The sink accepts every write in full and without error. -/
def World.accepts (world : World) (sink : SinkId) : Prop :=
  ∀ (t : List Event) (data : Bytes), world.sinkWrite sink t data = ((data.length : Int), none)

/-- The body that `sink` receives in the calls `evs`: the data of its `Write`
calls, concatenated. -/
def bodyBytes (sink : SinkId) : List Event → Bytes
  | [] => []
  | .write s data :: rest =>
    if s = sink then data ++ bodyBytes sink rest else bodyBytes sink rest
  | _ :: rest => bodyBytes sink rest

/-- The keys of a mapping held as an association list. -/
def keysOf {α : Type} (m : List (GoString × α)) : List GoString := m.map Prod.fst


/-- The status of a response as an `http.ResponseWriter` settles it: the code
of the first `WriteHeader` call it receives, and `http.StatusOK` when it
receives none. -/
def responseStatus (sink : SinkId) (evs : List Event) : Int :=
  (statusCodes sink evs).head?.getD StatusOK


/-- What a client of `io.Writer` writes and returns when every one of its
writes is accepted in full: the data of its writes, concatenated, and its
error. -/
def WriterProg.output : WriterProg → Bytes × Option GoError
  | .ret err => ([], err)
  | .write data next =>
    (data ++ (next ((data.length : Int), none)).output.1,
      (next ((data.length : Int), none)).output.2)

/-- The input that a reader delivers to a copy: what its `WriteTo` writes when
it has one, and otherwise the bytes of its reads. -/
def Reader.input (rd : Reader) : Bytes :=
  match rd.writeTo with
  | some wt => wt.output.1
  | none => readerInput rd.reads

/-- The reader delivers its input without error: its `WriteTo`, when it has
one, returns nil once its writes are accepted, and otherwise its reads end
with `io.EOF`. -/
def Reader.completes (rd : Reader) : Prop :=
  match rd.writeTo with
  | some wt => wt.output.2 = none
  | none => readsToEOF rd.reads

/-- The reader gives a copy nothing to write: its `WriteTo`, when it has one,
returns nil without calling `Write`, and otherwise its reads deliver no byte
and end with `io.EOF`. -/
def Reader.silent (rd : Reader) : Prop :=
  match rd.writeTo with
  | some wt => wt = WriterProg.ret none
  | none => readsToEOF rd.reads ∧ readerInput rd.reads = []

/-- The pending status when an encoder makes its first `Write`, on a buffer
whose pending status is `code` when the encoder is called: the code of its
last `WriteHeader` before that `Write`, and `code` when it made none. -/
def RespProg.statusAtFirstWrite : RespProg → Int → Int
  | .ret _, code => code
  | .headerSet _ _ next, code => next.statusAtFirstWrite code
  | .writeHeader statusCode next, _ => next.statusAtFirstWrite statusCode
  | .write _ _, code => code

/-- The pending status when the operation `op` makes its first body write, on
a buffer whose pending status is `code` once the queue is replayed: only
`Result` hands the buffer to the configured encoder `enc`, which may set
another status; the other operations write with `code`. -/
def WriteOp.statusAtFirstWrite (enc : Option Request → GoValue → RespProg)
    (req : Option Request) (code : Int) : WriteOp → Int
  | .Result v => (enc req v).statusAtFirstWrite code
  | _ => code


/-! ## Sample objects -/

/-- A sink that accepts every write in full. -/
def acceptAll : SinkId → List Event → Bytes → Int × Option GoError :=
  fun _ _ data => ((data.length : Int), none)

/-- A world in which nothing has been called yet and sinks accept every write. -/
def world0 : World := { trace := [], sinkWrite := acceptAll }

/-- A request with a live context without deadline. -/
def req0 : Request :=
  { Header := [], URLQuery := [], Form := [("a", ["1"])], muxVars := [("id", "42")],
    Context := { Deadline := (⟨17⟩, true), Done := some 3, Err := none,
                 values := [(.str "user", .int 7)] } }

/-- An encoder that sets the content type and writes the value as one chunk. -/
def plainEnc : Option Request → GoValue → RespProg :=
  fun _ v =>
    match v with
    | .bytes b => .headerSet "Content-Type" "application/octet-stream" (.write b fun _ => .ret none)
    | _ => .headerSet "Content-Type" "text/plain" (.write [110, 105, 108] fun r => .ret r.2)

/-- A context as the pool allocates it: not yet bound. -/
def ctx0 : wrapper :=
  { router := { srv := { enc := plainEnc } }, req := none, w := { code := 0, w := none },
    customerOperations := [] }

/-- A JSON or XML encoder that writes the bytes of a `bytes` value and fails on
every other value. -/
def rawEncode : GoValue → WriterProg
  | .bytes b => .write b fun r => .ret r.2
  | _ => .ret (some ⟨"unsupported value"⟩)

/-- An encoder that sets the status to 418 itself and then writes one chunk. -/
def teapotEnc : Option Request → GoValue → RespProg :=
  fun _ _ => .writeHeader 418 (.write [116] fun r => .ret r.2)

/-- A context, not yet bound, of a server whose encoder is `teapotEnc`. -/
def ctx1 : wrapper :=
  { router := { srv := { enc := teapotEnc } }, req := none, w := { code := 0, w := none },
    customerOperations := [] }

/-- A reader without bytes whose `WriteTo` writes one empty chunk and returns
the error of that write. -/
def emptyChunkReader : Reader :=
  { reads := [], writeTo := some (.write [] fun r => .ret r.2) }

/-- A reader without bytes whose first `Read` fails. -/
def failingReader : Reader :=
  { reads := [([], some ⟨"connection reset"⟩)], writeTo := none }


/-! ## Lemmas on the world and the queue -/

@[simp] theorem extend_nil (world : World) : world.extend [] = world := by
  cases world; simp [World.extend]

@[simp] theorem extend_extend (world : World) (a b : List Event) :
    (world.extend a).extend b = world.extend (a ++ b) := by
  simp [World.extend]

theorem log_eq_extend (world : World) (e : Event) : world.log e = world.extend [e] := rfl

@[simp] theorem extend_trace (world : World) (a : List Event) :
    (world.extend a).trace = world.trace ++ a := rfl

@[simp] theorem extend_sinkWrite (world : World) (a : List Event) :
    (world.extend a).sinkWrite = world.sinkWrite := rfl

theorem Write_bound (w : responseWriter) (world : World) (data : Bytes) (sink : SinkId)
    (hw : w.w = some sink) :
    w.Write world data =
      some ((world.sinkWrite sink (world.trace ++ [Event.writeHeader sink w.code]) data),
        world.extend [Event.writeHeader sink w.code, Event.write sink data]) := by
  simp [responseWriter.Write, hw, World.log, World.extend]

theorem headerSet_bound (w : responseWriter) (world : World) (key value : GoString)
    (sink : SinkId) (hw : w.w = some sink) :
    w.headerSet world key value = some (world.extend [Event.headerSet sink key value]) := by
  simp [responseWriter.headerSet, hw, World.log, World.extend]

/-- Replaying a queue leaves everything but the pending status code as it was. -/
theorem foldl_run_frame (q : List customerOperation) (c : wrapper) :
    (q.foldl (fun c1 opt => opt.run c1) c).router = c.router ∧
    (q.foldl (fun c1 opt => opt.run c1) c).req = c.req ∧
    (q.foldl (fun c1 opt => opt.run c1) c).customerOperations = c.customerOperations ∧
    (q.foldl (fun c1 opt => opt.run c1) c).w.w = c.w.w := by
  induction q generalizing c with
  | nil => simp
  | cons opt rest ih =>
    cases opt with
    | statusOverride code =>
      have h := ih (customerOperation.run (.statusOverride code) c)
      simpa [customerOperation.run, responseWriter.WriteHeader] using h

/-- Replaying a queue leaves the pending status code of its last closure. -/
theorem foldl_run_code (q : List customerOperation) (c : wrapper) :
    (q.foldl (fun c1 opt => opt.run c1) c).w.code =
      (c.w.code :: q.map customerOperation.code).getLast (List.cons_ne_nil _ _) := by
  induction q generalizing c with
  | nil => simp
  | cons opt rest ih =>
    cases opt with
    | statusOverride code =>
      have h := ih (customerOperation.run (.statusOverride code) c)
      simp only [List.foldl_cons, List.map_cons]
      rw [h]
      simp [customerOperation.run, responseWriter.WriteHeader, customerOperation.code,
        List.getLast_cons]

theorem setStatusCodes_wrapper (cs : List Int) (c : wrapper) (world : World) :
    setStatusCodes (.wrapperCtx c) world cs =
      (.wrapperCtx { c with customerOperations :=
          c.customerOperations ++ cs.map customerOperation.statusOverride }, world) := by
  unfold setStatusCodes
  induction cs generalizing c with
  | nil => simp
  | cons code rest ih =>
    have step : SetStatusCode (.wrapperCtx c) world code =
        (.wrapperCtx { c with customerOperations :=
          c.customerOperations ++ [customerOperation.statusOverride code] }, world) := rfl
    rw [List.foldl_cons, step, ih]
    simp

/-! ## Lemmas on the clients of the buffer -/

/-- A client of `io.Writer` run on a bound buffer returns, and each of its
writes reaches the sink as the pending status followed by the data. -/
theorem writerProg_run_bound (p : WriterProg) (w : responseWriter) (sink : SinkId)
    (hw : w.w = some sink) (world : World) :
    ∃ (err : Option GoError) (chunks : List Bytes), p.run w world =
      some (err, world.extend
        (chunks.flatMap fun d => [Event.writeHeader sink w.code, Event.write sink d])) := by
  induction p generalizing world with
  | ret err => exact ⟨err, [], by simp [WriterProg.run]⟩
  | write data next ih =>
    obtain ⟨err, chunks, h⟩ := ih (world.sinkWrite sink
      (world.trace ++ [Event.writeHeader sink w.code]) data)
      (world.extend [Event.writeHeader sink w.code, Event.write sink data])
    refine ⟨err, data :: chunks, ?_⟩
    simp [WriterProg.run, Write_bound w world data sink hw, h]

/-- A client of `http.ResponseWriter` run on a bound buffer returns, leaves the
buffer bound to the same sink and invokes no encoder. -/
theorem respProg_run_bound (p : RespProg) (w : responseWriter) (sink : SinkId)
    (hw : w.w = some sink) (world : World) :
    ∃ err w1 evs, p.run w world = some (err, w1, world.extend evs) ∧ w1.w = some sink ∧
      evs.any Event.isEncode = false := by
  induction p generalizing world w with
  | ret err => exact ⟨err, w, [], by simp [RespProg.run], hw, by simp⟩
  | headerSet key value next ih =>
    obtain ⟨err, w1, evs, h, h1, h2⟩ := ih w hw (world.extend [Event.headerSet sink key value])
    exact ⟨err, w1, Event.headerSet sink key value :: evs,
      by simp [RespProg.run, headerSet_bound w world key value sink hw, h], h1,
      by simpa [Event.isEncode] using h2⟩
  | writeHeader statusCode next ih =>
    obtain ⟨err, w1, evs, h, h1, h2⟩ := ih (w.WriteHeader statusCode) hw world
    exact ⟨err, w1, evs, by simp [RespProg.run, h], h1, h2⟩
  | write data next ih =>
    obtain ⟨err, w1, evs, h, h1, h2⟩ := ih (world.sinkWrite sink
      (world.trace ++ [Event.writeHeader sink w.code]) data) w hw
      (world.extend [Event.writeHeader sink w.code, Event.write sink data])
    exact ⟨err, w1, Event.writeHeader sink w.code :: Event.write sink data :: evs,
      by simp [RespProg.run, Write_bound w world data sink hw, h], h1,
      by simpa [Event.isEncode] using h2⟩

theorem firstWriteCarries_cons (sink : SinkId) (code : Int) (e : Event) (evs : List Event)
    (he : (e.isWriteHeader || e.isWrite) = false) (h : FirstWriteCarries sink code evs) :
    FirstWriteCarries sink code (e :: evs) := by
  obtain ⟨pre, data, post, h1, h2⟩ := h
  refine ⟨e :: pre, data, post, by simp [h1], ?_⟩
  unfold statusAndBody at h2 ⊢
  rw [List.filter_cons]
  simp [he, h2]

theorem firstWriteCarries_head (sink : SinkId) (code : Int) (data : Bytes) (post : List Event) :
    FirstWriteCarries sink code (Event.writeHeader sink code :: Event.write sink data :: post) :=
  ⟨[], data, post, by simp, by simp [statusAndBody]⟩

/-- The writes of a client of `io.Writer` carry the pending status of the
buffer with the first of them. -/
theorem writerProg_run_first (p : WriterProg) (w : responseWriter) (sink : SinkId)
    (hw : w.w = some sink) (world : World) :
    ∃ (err : Option GoError) (evs : List Event), p.run w world = some (err, world.extend evs) ∧
      (evs.any Event.isWrite = true → FirstWriteCarries sink w.code evs) := by
  obtain ⟨err, chunks, h⟩ := writerProg_run_bound p w sink hw world
  refine ⟨err, _, h, ?_⟩
  cases chunks with
  | nil => simp
  | cons d rest =>
    intro _
    simpa [List.flatMap_cons] using firstWriteCarries_head sink w.code d _

/-- The writes of an encoder that keeps the status carry the pending status of
the buffer with the first of them. -/
theorem respProg_run_first (p : RespProg) (hp : p.keepsStatus) (w : responseWriter)
    (sink : SinkId) (hw : w.w = some sink) (world : World) :
    ∃ (err : Option GoError) (w1 : responseWriter) (evs : List Event),
      p.run w world = some (err, w1, world.extend evs) ∧ w1.w = some sink ∧
      (evs.any Event.isWrite = true → FirstWriteCarries sink w.code evs) := by
  induction p generalizing world with
  | ret err => exact ⟨err, w, [], by simp [RespProg.run], hw, by simp⟩
  | headerSet key value next ih =>
    obtain ⟨err, w1, evs, h, hb, h1⟩ := ih hp (world.extend [Event.headerSet sink key value])
    refine ⟨err, w1, Event.headerSet sink key value :: evs,
      by simp [RespProg.run, headerSet_bound w world key value sink hw, h], hb, ?_⟩
    intro hany
    apply firstWriteCarries_cons _ _ _ _ (by simp [Event.isWriteHeader, Event.isWrite])
    apply h1
    simpa [Event.isWrite] using hany
  | writeHeader statusCode next _ => exact absurd hp (by simp [RespProg.keepsStatus])
  | write data next _ =>
    obtain ⟨err, w1, evs, h, hb, _⟩ := respProg_run_bound (next (world.sinkWrite sink
      (world.trace ++ [Event.writeHeader sink w.code]) data)) w sink hw
      (world.extend [Event.writeHeader sink w.code, Event.write sink data])
    exact ⟨err, w1, Event.writeHeader sink w.code :: Event.write sink data :: evs,
      by simp [RespProg.run, Write_bound w world data sink hw, h], hb,
      fun _ => firstWriteCarries_head sink w.code data evs⟩

/-! ## Lemmas on the write operations -/

/-- The context once a write operation has set its code and replayed the queue. -/
theorem applyCustomerOperations_facts (c c2 : wrapper) (code : Int)
    (hc : c2 = wrapper.applyCustomerOperations { c with w := c.w.WriteHeader code }) :
    c2.router = c.router ∧ c2.req = c.req ∧ c2.customerOperations = c.customerOperations ∧
      c2.w.w = c.w.w ∧ c2.w.code = finalCode code c.customerOperations := by
  subst hc
  have h1 := foldl_run_frame c.customerOperations { c with w := c.w.WriteHeader code }
  have h2 := foldl_run_code c.customerOperations { c with w := c.w.WriteHeader code }
  exact ⟨h1.1, h1.2.1, h1.2.2.1, h1.2.2.2, h2⟩


/-- Every write operation on a bound context returns; it leaves the queue, the
request, the router and the sink of the context as they were; and when it
writes a body chunk, the first one carries the last code of its own code
followed by the queued codes. -/
theorem perform_shape (jsonEncode xmlEncode : GoValue → WriterProg) (c : wrapper)
    (world : World) (sink : SinkId) (hw : c.w.w = some sink) (code : Int) (op : WriteOp) :
    ∃ (err : Option GoError) (c1 : wrapper) (evs : List Event),
      c.perform jsonEncode xmlEncode world code op = some (err, c1, world.extend evs) ∧
      c1.customerOperations = c.customerOperations ∧ c1.req = c.req ∧
      c1.router = c.router ∧ c1.w.w = some sink ∧
      (op.encoderKeepsStatus c.router.srv.enc c.req → evs.any Event.isWrite = true →
        FirstWriteCarries sink (finalCode code c.customerOperations) evs) := by
  obtain ⟨c2, hc⟩ : ∃ c2, c2 = wrapper.applyCustomerOperations
    { c with w := c.w.WriteHeader code } := ⟨_, rfl⟩
  obtain ⟨f1, f2, f3, f4, f5⟩ := applyCustomerOperations_facts c c2 code hc
  have hw2 : c2.w.w = some sink := by rw [f4]; exact hw
  cases op with
  | Result v =>
    by_cases hk : (c.router.srv.enc c.req v).keepsStatus
    · obtain ⟨err, w1, evs, h, hb, h1⟩ := respProg_run_first (c2.router.srv.enc c2.req v)
        (by rw [f1, f2]; exact hk) c2.w sink hw2 (world.extend [Event.encode c2.req v])
      refine ⟨err, { c2 with w := w1 }, Event.encode c2.req v :: evs, ?_, f3, f2, f1, hb, ?_⟩
      · simp [wrapper.perform, wrapper.Result, log_eq_extend, ← hc, h]
      · intro _ hany
        apply firstWriteCarries_cons _ _ _ _ (by simp [Event.isWriteHeader, Event.isWrite])
        rw [← f5]
        apply h1
        simpa [Event.isWrite] using hany
    · obtain ⟨err, w1, evs, h, hb, _⟩ := respProg_run_bound (c2.router.srv.enc c2.req v)
        c2.w sink hw2 (world.extend [Event.encode c2.req v])
      refine ⟨err, { c2 with w := w1 }, Event.encode c2.req v :: evs, ?_, f3, f2, f1, hb, ?_⟩
      · simp [wrapper.perform, wrapper.Result, log_eq_extend, ← hc, h]
      · intro hc1
        exact absurd hc1 hk
  | JSON v =>
    obtain ⟨err, evs, h, h1⟩ := writerProg_run_first (jsonEncode v) c2.w sink hw2
      (world.extend [Event.headerSet sink "Content-Type" "application/json"])
    refine ⟨err, c2, Event.headerSet sink "Content-Type" "application/json" :: evs,
      ?_, f3, f2, f1, hw2, ?_⟩
    · simp [wrapper.perform, wrapper.JSON, headerSet_bound c.w world _ _ sink hw, ← hc, h]
    · intro _ hany
      apply firstWriteCarries_cons _ _ _ _ (by simp [Event.isWriteHeader, Event.isWrite])
      rw [← f5]
      apply h1
      simpa [Event.isWrite] using hany
  | XML v =>
    obtain ⟨err, evs, h, h1⟩ := writerProg_run_first (xmlEncode v) c2.w sink hw2
      (world.extend [Event.headerSet sink "Content-Type" "application/xml"])
    refine ⟨err, c2, Event.headerSet sink "Content-Type" "application/xml" :: evs,
      ?_, f3, f2, f1, hw2, ?_⟩
    · simp [wrapper.perform, wrapper.XML, headerSet_bound c.w world _ _ sink hw, ← hc, h]
    · intro _ hany
      apply firstWriteCarries_cons _ _ _ _ (by simp [Event.isWriteHeader, Event.isWrite])
      rw [← f5]
      apply h1
      simpa [Event.isWrite] using hany
  | String text =>
    have hwr := Write_bound c2.w
      (world.extend [Event.headerSet sink "Content-Type" "text/plain"]) (bytesOf text) sink hw2
    refine ⟨(world.sinkWrite sink (world.trace ++ [Event.headerSet sink "Content-Type"
        "text/plain", Event.writeHeader sink c2.w.code]) (bytesOf text)).2, c2,
      [Event.headerSet sink "Content-Type" "text/plain", Event.writeHeader sink c2.w.code,
        Event.write sink (bytesOf text)], ?_, f3, f2, f1, hw2, ?_⟩
    · simp only [wrapper.perform, wrapper.String, headerSet_bound c.w world _ _ sink hw, ← hc,
        hwr]
      simp only [extend_trace, extend_sinkWrite, extend_extend,
        List.append_assoc, List.singleton_append, List.cons_append, List.nil_append]
      split <;> simp_all
    · intro _ _
      rw [f5]
      exact firstWriteCarries_cons _ _ _ _ (by simp [Event.isWriteHeader, Event.isWrite])
        (firstWriteCarries_head sink _ _ _)
  | Blob contentType data =>
    have hwr := Write_bound c2.w
      (world.extend [Event.headerSet sink "Content-Type" contentType]) data sink hw2
    refine ⟨(world.sinkWrite sink (world.trace ++ [Event.headerSet sink "Content-Type"
        contentType, Event.writeHeader sink c2.w.code]) data).2, c2,
      [Event.headerSet sink "Content-Type" contentType, Event.writeHeader sink c2.w.code,
        Event.write sink data], ?_, f3, f2, f1, hw2, ?_⟩
    · simp only [wrapper.perform, wrapper.Blob, headerSet_bound c.w world _ _ sink hw, ← hc,
        hwr]
      simp only [extend_trace, extend_sinkWrite, extend_extend,
        List.append_assoc, List.singleton_append, List.cons_append, List.nil_append]
      split <;> simp_all
    · intro _ _
      rw [f5]
      exact firstWriteCarries_cons _ _ _ _ (by simp [Event.isWriteHeader, Event.isWrite])
        (firstWriteCarries_head sink _ _ _)
  | Stream contentType rd =>
    obtain ⟨err, evs, h, h1⟩ := writerProg_run_first (ioCopy rd) c2.w sink hw2
      (world.extend [Event.headerSet sink "Content-Type" contentType])
    refine ⟨err, c2, Event.headerSet sink "Content-Type" contentType :: evs,
      ?_, f3, f2, f1, hw2, ?_⟩
    · simp [wrapper.perform, wrapper.Stream, headerSet_bound c.w world _ _ sink hw, ← hc, h]
    · intro _ hany
      apply firstWriteCarries_cons _ _ _ _ (by simp [Event.isWriteHeader, Event.isWrite])
      rw [← f5]
      apply h1
      simpa [Event.isWrite] using hany


theorem finalCode_overrides (code : Int) (cs : List Int) :
    finalCode code (cs.map customerOperation.statusOverride) =
      (code :: cs).getLast (List.cons_ne_nil code cs) := by
  unfold finalCode
  congr 1
  simp [Function.comp_def, customerOperation.code]

theorem finalCode_append_override (code code1 : Int) (q : List customerOperation) :
    finalCode code (q ++ [customerOperation.statusOverride code1]) = code1 := by
  have h : code :: (q ++ [customerOperation.statusOverride code1]).map customerOperation.code =
      (code :: q.map customerOperation.code) ++ [code1] := by
    simp [customerOperation.code]
  unfold finalCode
  simp only [h, List.getLast_append_singleton]

/-- The calls on a bound buffer return, and the sink receives each `Write` as
the pending status followed by the data. -/
theorem calls_bound (calls : List BufferCall) (w : responseWriter) (world : World)
    (sink : SinkId) (hw : w.w = some sink) :
    ∃ w1, w.calls world calls = some (w1, world.extend (bufferEvents sink w.code calls)) := by
  induction calls generalizing w world with
  | nil => exact ⟨w, by simp [responseWriter.calls, bufferEvents]⟩
  | cons call rest ih =>
    cases call with
    | WriteHeader statusCode =>
      obtain ⟨w1, h⟩ := ih (w.WriteHeader statusCode) world hw
      exact ⟨w1, by simpa [responseWriter.calls, bufferEvents] using h⟩
    | Write data =>
      obtain ⟨w1, h⟩ := ih w
        (world.extend [Event.writeHeader sink w.code, Event.write sink data]) hw
      exact ⟨w1, by simp [responseWriter.calls, bufferEvents, Write_bound w world data sink hw, h]⟩

theorem statusCodes_bufferEvents (calls : List BufferCall) (sink : SinkId) (code : Int) :
    (statusCodes sink (bufferEvents sink code calls)).length =
      (calls.filter BufferCall.isWrite).length := by
  induction calls generalizing code with
  | nil => simp [bufferEvents, statusCodes]
  | cons call rest ih =>
    cases call with
    | WriteHeader statusCode => simpa [bufferEvents, BufferCall.isWrite] using ih statusCode
    | Write data => simp [bufferEvents, statusCodes, BufferCall.isWrite, ih code]

/-- A history without `Reset` on a bound context returns; it leaves the
context bound to its sink, router and request, and the queue grows by the
closures that the history queues. -/
theorem calls_shape (jsonEncode xmlEncode : GoValue → WriterProg) (history : List Call)
    (hno : history.any Call.isReset = false) (c : wrapper) (world : World) (sink : SinkId)
    (hw : c.w.w = some sink) :
    ∃ (c1 : wrapper) (world1 : World),
      c.calls jsonEncode xmlEncode world history = some (c1, world1) ∧
      c1.customerOperations = c.customerOperations ++ Call.overrides history ∧
      c1.w.w = some sink ∧ c1.router = c.router ∧ c1.req = c.req := by
  induction history generalizing c world with
  | nil => exact ⟨c, world, by simp [wrapper.calls], by simp [Call.overrides], hw, rfl, rfl⟩
  | cons call rest ih =>
    have hrest : rest.any Call.isReset = false := by
      simp only [List.any_cons, Bool.or_eq_false_iff] at hno
      exact hno.2
    cases call with
    | SetStatusCode code =>
      obtain ⟨c1, world1, h, hq, hb, hr, hreq⟩ := ih hrest
        { c with customerOperations :=
            c.customerOperations ++ [customerOperation.statusOverride code] } world hw
      refine ⟨c1, world1, ?_, ?_, hb, hr, hreq⟩
      · simpa [wrapper.calls, wrapper.call, SetStatusCode] using h
      · simpa [Call.overrides] using hq
    | write code op =>
      obtain ⟨err, c2, evs, h2, hq2, hreq2, hr2, hb2, _⟩ :=
        perform_shape jsonEncode xmlEncode c world sink hw code op
      obtain ⟨c1, world1, h, hq, hb, hr, hreq⟩ := ih hrest c2 (world.extend evs) hb2
      refine ⟨c1, world1, ?_, ?_, hb, hr.trans hr2, hreq.trans hreq2⟩
      · simp [wrapper.calls, wrapper.call, h2, h]
      · simpa [Call.overrides, hq2] using hq
    | Returns v err =>
      cases err with
      | some e =>
        obtain ⟨c1, world1, h, hq, hb, hr, hreq⟩ := ih hrest c world hw
        refine ⟨c1, world1, ?_, ?_, hb, hr, hreq⟩
        · simp [wrapper.calls, wrapper.call, wrapper.Returns, h]
        · simpa [Call.overrides] using hq
      | none =>
        obtain ⟨err, w1, evs, h2, hb2, _⟩ := respProg_run_bound (c.router.srv.enc c.req v)
          c.w sink hw (world.extend [Event.encode c.req v])
        obtain ⟨c1, world1, h, hq, hb, hr, hreq⟩ := ih hrest { c with w := w1 }
          ((world.extend [Event.encode c.req v]).extend evs) hb2
        simp only [extend_extend, List.singleton_append] at h
        refine ⟨c1, world1, ?_, ?_, hb, hr, hreq⟩
        · simp [wrapper.calls, wrapper.call, wrapper.Returns, log_eq_extend, h2, h]
        · simpa [Call.overrides] using hq
    | Reset res req => simp [Call.isReset] at hno

/-! ## Lemmas on mappings -/

theorem set_fresh (m : Values) (k : GoString) (v : List GoString) (hk : k ∉ keysOf m) :
    Values.set m k v = (k, v) :: m := by
  unfold Values.set
  congr 1
  rw [List.filter_eq_self]
  intro p hp
  have hne : p.1 ≠ k := by
    intro h
    apply hk
    rw [← h]
    exact List.mem_map_of_mem Prod.fst hp
  simpa using hne

/-- Filling a mapping from captures with distinct names, none of them in the
mapping yet, puts each capture in front as a one-element list. -/
theorem foldl_set_fresh (m : List (GoString × GoString)) (acc : Values)
    (hm : (keysOf m).Nodup) (hd : ∀ k ∈ keysOf m, k ∉ keysOf acc) :
    m.foldl (fun vars kv => Values.set vars kv.1 [kv.2]) acc =
      (m.map fun kv => (kv.1, [kv.2])).reverse ++ acc := by
  induction m generalizing acc with
  | nil => simp
  | cons kv rest ih =>
    have hk : kv.1 ∉ keysOf acc := hd kv.1 (by simp [keysOf])
    have hn : kv.1 ∉ keysOf rest ∧ (keysOf rest).Nodup := by
      simpa [keysOf] using hm
    rw [List.foldl_cons, set_fresh acc kv.1 [kv.2] hk, ih ((kv.1, [kv.2]) :: acc) hn.2]
    · simp
    · intro k hkr
      have h1 : k ∉ keysOf acc := hd k (by simp only [keysOf, List.map_cons, List.mem_cons]
                                           exact Or.inr hkr)
      have h2 : k ≠ kv.1 := fun h => hn.1 (h ▸ hkr)
      simpa [keysOf, h2] using h1

theorem lookup_of_not_mem {α : Type} (m : List (GoString × α)) (k : GoString)
    (h : k ∉ keysOf m) : m.lookup k = none := by
  induction m with
  | nil => rfl
  | cons p rest ih =>
    obtain ⟨k1, v1⟩ := p
    have h1 : k ≠ k1 ∧ k ∉ keysOf rest := by simpa [keysOf] using h
    have hb : (k == k1) = false := by simpa using h1.1
    rw [List.lookup_cons, hb]
    exact ih h1.2

theorem lookup_of_mem {α : Type} (m : List (GoString × α)) (hm : (keysOf m).Nodup)
    (k : GoString) (v : α) (h : (k, v) ∈ m) : m.lookup k = some v := by
  induction m with
  | nil => simp at h
  | cons p rest ih =>
    obtain ⟨k1, v1⟩ := p
    have hn : k1 ∉ keysOf rest ∧ (keysOf rest).Nodup := by simpa [keysOf] using hm
    rcases List.mem_cons.mp h with heq | hmem
    · obtain ⟨rfl, rfl⟩ := Prod.mk.inj heq
      simp [List.lookup_cons]
    · have hne : k ≠ k1 := by
        intro h1
        apply hn.1
        rw [← h1]
        exact List.mem_map_of_mem Prod.fst hmem
      have hb : (k == k1) = false := by simpa using hne
      rw [List.lookup_cons, hb]
      exact ih hn.2 hmem

theorem mem_of_lookup {α : Type} (m : List (GoString × α)) (k : GoString) (v : α)
    (h : m.lookup k = some v) : (k, v) ∈ m := by
  induction m with
  | nil => simp at h
  | cons p rest ih =>
    obtain ⟨k1, v1⟩ := p
    rw [List.lookup_cons] at h
    by_cases hk : k = k1
    · subst hk
      simp at h
      simp [h]
    · have hb : (k == k1) = false := by simpa using hk
      rw [hb] at h
      exact List.mem_cons_of_mem _ (ih h)


/-! ## Lemmas on the copy and on the events of a writer -/

/-- The context once a write operation has set its code and replayed the
queue: only the pending status has changed. -/
theorem applyCustomerOperations_eq (c : wrapper) (code : Int) :
    wrapper.applyCustomerOperations { c with w := c.w.WriteHeader code } =
      { c with w := { code := finalCode code c.customerOperations, w := c.w.w } } := by
  obtain ⟨h1, h2, h3, h4, h5⟩ := applyCustomerOperations_facts c _ code rfl
  generalize wrapper.applyCustomerOperations { c with w := c.w.WriteHeader code } = c2 at *
  obtain ⟨r2, q2, ⟨code2, s2⟩, o2⟩ := c2
  simp only at h1 h2 h3 h4 h5
  subst h1 h2 h3 h4 h5
  rfl

theorem writerEvents_statusAndBody (sink : SinkId) (code : Int) (chunks : List Bytes) :
    ∀ e ∈ chunks.flatMap (fun d => [Event.writeHeader sink code, Event.write sink d]),
      (e.isWriteHeader || e.isWrite) = true := by
  intro e he
  obtain ⟨d, _, hd⟩ := List.mem_flatMap.mp he
  simp only [List.mem_cons, List.mem_singleton, List.not_mem_nil, or_false] at hd
  rcases hd with rfl | rfl <;> simp [Event.isWriteHeader, Event.isWrite]

theorem writerEvents_body (sink : SinkId) (code : Int) (chunks : List Bytes) :
    bodyBytes sink (chunks.flatMap fun d => [Event.writeHeader sink code, Event.write sink d]) =
      chunks.flatten := by
  induction chunks with
  | nil => rfl
  | cons d rest ih =>
    have h : (d :: rest).flatMap (fun d => [Event.writeHeader sink code, Event.write sink d]) =
        Event.writeHeader sink code :: Event.write sink d ::
          rest.flatMap (fun d => [Event.writeHeader sink code, Event.write sink d]) := by
      rw [List.flatMap_cons]
      rfl
    rw [h]
    simp only [bodyBytes]
    rw [if_pos trivial, ih, List.flatten_cons]

theorem writerEvents_statusCodes (sink : SinkId) (code : Int) (chunks : List Bytes) :
    statusCodes sink (chunks.flatMap fun d => [Event.writeHeader sink code, Event.write sink d]) =
      List.replicate chunks.length code := by
  induction chunks with
  | nil => rfl
  | cons d rest ih =>
    have h : (d :: rest).flatMap (fun d => [Event.writeHeader sink code, Event.write sink d]) =
        Event.writeHeader sink code :: Event.write sink d ::
          rest.flatMap (fun d => [Event.writeHeader sink code, Event.write sink d]) := by
      rw [List.flatMap_cons]
      rfl
    rw [h]
    simp only [statusCodes]
    rw [if_pos trivial, ih, List.length_cons, List.replicate_succ]

/-- The copy from a reader that ends with `io.EOF` to a sink that accepts every
write completes with a nil error, and the chunks written are the non-empty
reads, in order. -/
theorem copyLoop_accepted (reads : List (Bytes × Option GoError)) (hr : readsToEOF reads)
    (w : responseWriter) (sink : SinkId) (hw : w.w = some sink) (world : World)
    (ha : world.accepts sink) :
    ∃ chunks : List Bytes,
      (copyLoop reads).run w world = some (none, world.extend
        (chunks.flatMap fun d => [Event.writeHeader sink w.code, Event.write sink d])) ∧
      chunks.flatten = readerInput reads ∧ (readerInput reads ≠ [] → chunks ≠ []) := by
  induction reads generalizing world with
  | nil => exact ⟨[], by simp [copyLoop, WriterProg.run], rfl, by simp [readerInput]⟩
  | cons rd rest ih =>
    obtain ⟨buf, er⟩ := rd
    have ha2 : ∀ evs, (world.extend evs).accepts sink := fun evs t data => ha t data
    by_cases hlen : 0 < buf.length
    · have hres := ha (world.trace ++ [Event.writeHeader sink w.code]) buf
      have hneg : ¬ ((buf.length : Int) < 0) := by omega
      cases er with
      | none =>
        obtain ⟨chunks, h, hc, _⟩ := ih hr
          (world.extend [Event.writeHeader sink w.code, Event.write sink buf]) (ha2 _)
        refine ⟨buf :: chunks, ?_, by simp [readerInput, hc], by simp⟩
        simp [copyLoop, hlen, hneg, WriterProg.run, Write_bound w world buf sink hw, hres, h]
      | some e =>
        have he : e = EOF := hr
        refine ⟨[buf], ?_, by simp [readerInput], by simp⟩
        simp [copyLoop, hlen, hneg, WriterProg.run, Write_bound w world buf sink hw, hres, he]
    · have hb : buf = [] := by
        cases buf with
        | nil => rfl
        | cons a t => simp at hlen
      cases er with
      | none =>
        obtain ⟨chunks, h, hc, hne⟩ := ih hr world ha
        refine ⟨chunks, ?_, by simp [readerInput, hc, hb], by simpa [readerInput, hb] using hne⟩
        simp [copyLoop, hb, h]
      | some e =>
        have he : e = EOF := hr
        exact ⟨[], by simp [copyLoop, hb, he, WriterProg.run], by simp [readerInput, hb],
          by simp [readerInput, hb]⟩

/-- The copy from a reader that delivers no byte and ends with `io.EOF` calls
nothing and returns nil. -/
theorem copyLoop_empty (reads : List (Bytes × Option GoError)) (hr : readsToEOF reads)
    (he : readerInput reads = []) (w : responseWriter) (world : World) :
    (copyLoop reads).run w world = some (none, world) := by
  induction reads with
  | nil => simp [copyLoop, WriterProg.run]
  | cons rd rest ih =>
    obtain ⟨buf, er⟩ := rd
    cases er with
    | none =>
      have hb : buf = [] ∧ readerInput rest = [] := by simpa [readerInput] using he
      have h := ih hr hb.2
      simpa [copyLoop, hb.1] using h
    | some e =>
      have hb : buf = [] := by simpa [readerInput] using he
      have h1 : e = EOF := hr
      simp [copyLoop, hb, h1, WriterProg.run]

/-- The operation `Stream` on a bound context: the content type is set, then
the copy runs on the buffer with the replayed status. -/
theorem stream_bound (c : wrapper) (world : World) (sink : SinkId) (hw : c.w.w = some sink)
    (code : Int) (contentType : GoString) (rd : Reader) :
    c.Stream world code contentType rd =
      ((ioCopy rd).run { code := finalCode code c.customerOperations, w := some sink }
        (world.extend [Event.headerSet sink "Content-Type" contentType])).map
        fun r => (r.1,
          { c with w := { code := finalCode code c.customerOperations, w := some sink } }, r.2) := by
  simp only [wrapper.Stream, headerSet_bound c.w world _ _ sink hw, applyCustomerOperations_eq, hw]
  cases (ioCopy rd).run { code := finalCode code c.customerOperations, w := some sink }
    (world.extend [Event.headerSet sink "Content-Type" contentType]) <;> rfl


/-- The operation `Blob` on a bound context: the content type is set, then the
data is written once with the replayed status, and the error of that write is
returned. -/
theorem blob_bound (c : wrapper) (world : World) (sink : SinkId) (hw : c.w.w = some sink)
    (code : Int) (contentType : GoString) (data : Bytes) :
    c.Blob world code contentType data =
      some ((world.sinkWrite sink (world.trace ++
          [Event.headerSet sink "Content-Type" contentType,
            Event.writeHeader sink (finalCode code c.customerOperations)]) data).2,
        { c with w := { code := finalCode code c.customerOperations, w := some sink } },
        world.extend [Event.headerSet sink "Content-Type" contentType,
          Event.writeHeader sink (finalCode code c.customerOperations),
          Event.write sink data]) := by
  have hwr := Write_bound { code := finalCode code c.customerOperations, w := some sink }
    (world.extend [Event.headerSet sink "Content-Type" contentType]) data sink rfl
  simp only [wrapper.Blob, headerSet_bound c.w world _ _ sink hw, applyCustomerOperations_eq,
    hw, hwr, extend_extend, extend_trace, extend_sinkWrite, List.singleton_append,
    List.append_assoc, List.cons_append, List.nil_append]
  split <;> simp_all

/-- The operation `String` on a bound context: it is `Blob` with the content
type "text/plain" and the bytes of the text. -/
theorem string_bound (c : wrapper) (world : World) (sink : SinkId) (hw : c.w.w = some sink)
    (code : Int) (text : GoString) :
    c.String world code text =
      some ((world.sinkWrite sink (world.trace ++
          [Event.headerSet sink "Content-Type" "text/plain",
            Event.writeHeader sink (finalCode code c.customerOperations)]) (bytesOf text)).2,
        { c with w := { code := finalCode code c.customerOperations, w := some sink } },
        world.extend [Event.headerSet sink "Content-Type" "text/plain",
          Event.writeHeader sink (finalCode code c.customerOperations),
          Event.write sink (bytesOf text)]) := by
  rw [← blob_bound c world sink hw code "text/plain" (bytesOf text)]
  rfl


/-- A run of `WriteHeader` calls on the buffer calls nothing on the sink and
leaves the last code pending. -/
theorem calls_writeHeaders (cs : List Int) (w : responseWriter) (world : World) :
    w.calls world (cs.map BufferCall.WriteHeader) =
      some ({ w with code := (w.code :: cs).getLast (List.cons_ne_nil _ _) }, world) := by
  induction cs generalizing w with
  | nil => rfl
  | cons code rest ih =>
    rw [List.map_cons, responseWriter.calls, ih]
    simp [responseWriter.WriteHeader, List.getLast_cons]


/-- A client of `io.Writer` run on a bound buffer whose sink accepts every
write returns its error, and the chunks it writes make up its output. -/
theorem writerProg_accepted (p : WriterProg) (w : responseWriter) (sink : SinkId)
    (hw : w.w = some sink) (world : World) (ha : world.accepts sink) :
    ∃ chunks : List Bytes,
      p.run w world = some (p.output.2, world.extend
        (chunks.flatMap fun d => [Event.writeHeader sink w.code, Event.write sink d])) ∧
      chunks.flatten = p.output.1 ∧ (p.output.1 ≠ [] → chunks ≠ []) := by
  induction p generalizing world with
  | ret err => exact ⟨[], by simp [WriterProg.run, WriterProg.output], rfl,
      by simp [WriterProg.output]⟩
  | write data next ih =>
    have hres := ha (world.trace ++ [Event.writeHeader sink w.code]) data
    obtain ⟨chunks, h, hc, _⟩ := ih ((data.length : Int), none)
      (world.extend [Event.writeHeader sink w.code, Event.write sink data])
      (fun t d => ha t d)
    refine ⟨data :: chunks, ?_, by simp [WriterProg.output, hc], by simp⟩
    simp [WriterProg.run, WriterProg.output, Write_bound w world data sink hw, hres, h]

/-- The copy from a reader that delivers its input without error to a sink
that accepts every write returns nil, and the chunks written make up the
input. -/
theorem ioCopy_accepted (rd : Reader) (hr : rd.completes) (w : responseWriter)
    (sink : SinkId) (hw : w.w = some sink) (world : World) (ha : world.accepts sink) :
    ∃ chunks : List Bytes,
      (ioCopy rd).run w world = some (none, world.extend
        (chunks.flatMap fun d => [Event.writeHeader sink w.code, Event.write sink d])) ∧
      chunks.flatten = rd.input ∧ (rd.input ≠ [] → chunks ≠ []) := by
  obtain ⟨reads, wt⟩ := rd
  cases wt with
  | none => exact copyLoop_accepted reads hr w sink hw world ha
  | some p =>
    obtain ⟨chunks, h, hc, hne⟩ := writerProg_accepted p w sink hw world ha
    have hn : p.output.2 = none := hr
    rw [hn] at h
    exact ⟨chunks, h, hc, hne⟩

/-- The copy from a reader that gives nothing to write calls nothing and
returns nil. -/
theorem ioCopy_silent (rd : Reader) (hs : rd.silent) (w : responseWriter) (world : World) :
    (ioCopy rd).run w world = some (none, world) := by
  obtain ⟨reads, wt⟩ := rd
  cases wt with
  | none => exact copyLoop_empty reads hs.1 hs.2 w world
  | some p =>
    have hp : p = WriterProg.ret none := hs
    subst hp
    rfl

/-- The writes of an encoder carry, with the first of them, the status that is
pending when the encoder makes it. -/
theorem respProg_run_status (p : RespProg) (w : responseWriter) (sink : SinkId)
    (hw : w.w = some sink) (world : World) :
    ∃ (err : Option GoError) (w1 : responseWriter) (evs : List Event),
      p.run w world = some (err, w1, world.extend evs) ∧
      (evs.any Event.isWrite = true →
        FirstWriteCarries sink (p.statusAtFirstWrite w.code) evs) := by
  induction p generalizing world w with
  | ret err => exact ⟨err, w, [], by simp [RespProg.run], by simp⟩
  | headerSet key value next ih =>
    obtain ⟨err, w1, evs, h, h1⟩ := ih w hw (world.extend [Event.headerSet sink key value])
    refine ⟨err, w1, Event.headerSet sink key value :: evs,
      by simp [RespProg.run, headerSet_bound w world key value sink hw, h], ?_⟩
    intro hany
    apply firstWriteCarries_cons _ _ _ _ (by simp [Event.isWriteHeader, Event.isWrite])
    apply h1
    simpa [Event.isWrite] using hany
  | writeHeader statusCode next ih =>
    obtain ⟨err, w1, evs, h, h1⟩ := ih (w.WriteHeader statusCode) hw world
    exact ⟨err, w1, evs, by simp [RespProg.run, h], h1⟩
  | write data next _ =>
    obtain ⟨err, w1, evs, h, _, _⟩ := respProg_run_bound (next (world.sinkWrite sink
      (world.trace ++ [Event.writeHeader sink w.code]) data)) w sink hw
      (world.extend [Event.writeHeader sink w.code, Event.write sink data])
    exact ⟨err, w1, Event.writeHeader sink w.code :: Event.write sink data :: evs,
      by simp [RespProg.run, Write_bound w world data sink hw, h],
      fun _ => firstWriteCarries_head sink w.code data evs⟩

/-- An encoder that keeps the status writes with the status it was called
with. -/
theorem keepsStatus_statusAtFirstWrite (p : RespProg) (hp : p.keepsStatus) (code : Int) :
    p.statusAtFirstWrite code = code := by
  induction p with
  | ret err => rfl
  | headerSet key value next ih => exact ih hp
  | writeHeader statusCode next _ => exact absurd hp (by simp [RespProg.keepsStatus])
  | write data next _ => rfl

theorem encoderKeepsStatus_statusAtFirstWrite (enc : Option Request → GoValue → RespProg)
    (req : Option Request) (code : Int) (op : WriteOp) (h : op.encoderKeepsStatus enc req) :
    op.statusAtFirstWrite enc req code = code := by
  cases op with
  | Result v => exact keepsStatus_statusAtFirstWrite (enc req v) h code
  | _ => rfl

/-- Every write operation on a bound context returns, and when it writes a
body chunk, the first one carries the status that is pending at that moment:
the last of its own code followed by the queued codes, unless the encoder of
`Result` has set another one. -/
theorem perform_status (jsonEncode xmlEncode : GoValue → WriterProg) (c : wrapper)
    (world : World) (sink : SinkId) (hw : c.w.w = some sink) (code : Int) (op : WriteOp) :
    ∃ (err : Option GoError) (c1 : wrapper) (evs : List Event),
      c.perform jsonEncode xmlEncode world code op = some (err, c1, world.extend evs) ∧
      (evs.any Event.isWrite = true → FirstWriteCarries sink
        (op.statusAtFirstWrite c.router.srv.enc c.req (finalCode code c.customerOperations))
        evs) := by
  by_cases hres : ∃ v, op = WriteOp.Result v
  · obtain ⟨v, rfl⟩ := hres
    obtain ⟨err, w1, evs, h, h1⟩ := respProg_run_status (c.router.srv.enc c.req v)
      { code := finalCode code c.customerOperations, w := c.w.w } sink hw
      (world.extend [Event.encode c.req v])
    refine ⟨err, { c with w := w1 }, Event.encode c.req v :: evs, ?_, ?_⟩
    · simp [wrapper.perform, wrapper.Result, log_eq_extend, applyCustomerOperations_eq, h]
    · intro hany
      apply firstWriteCarries_cons _ _ _ _ (by simp [Event.isWriteHeader, Event.isWrite])
      apply h1
      simpa [Event.isWrite] using hany
  · obtain ⟨err, c1, evs, h, _, _, _, _, h1⟩ :=
      perform_shape jsonEncode xmlEncode c world sink hw code op
    refine ⟨err, c1, evs, h, ?_⟩
    intro hany
    cases op with
    | Result v => exact absurd ⟨v, rfl⟩ hres
    | JSON v => exact h1 trivial hany
    | XML v => exact h1 trivial hany
    | String text => exact h1 trivial hany
    | Blob contentType data => exact h1 trivial hany
    | Stream contentType rd => exact h1 trivial hany


/-! ## The claims -/

/-- C1, as stated, fails for `Result`: with a configured encoder that calls
`WriteHeader(418)` on the buffer before it writes, `Reset`,
`SetStatusCode(ctx, 201)` and `Result(200, v)` make the sink receive status
418 with the first body write, and neither 201, the last of `[200, 201]`, nor
200. -/
theorem encoder_status_wins_over_queue :
    (ctx1.calls rawEncode rawEncode world0
      [.Reset (some 0) (some req0), .SetStatusCode 201, .write 200 (.Result .null)]).map
        (fun r => r.2.trace) =
      some [.encode (some req0) .null, .writeHeader 0 418, .write 0 [116]] ∧
    (ctx1.calls rawEncode rawEncode world0
      [.Reset (some 0) (some req0), .SetStatusCode 201, .write 200 (.Result .null)]).map
        (fun r => statusCodes 0 r.2.trace) = some [418] ∧
    (200 :: [201]).getLast (List.cons_ne_nil 200 [201]) = (201 : Int) := by
  decide

/-- C1, amended: after `Reset(sink, req)` and the calls
`SetStatusCode(ctx, c1)`, ..., `SetStatusCode(ctx, cn)`, each of the write
operations `Result`, `JSON`, `XML`, `String`, `Blob` and `Stream` called with
`code` returns, and when it writes a body chunk the sink receives, right
before its first body write and before any other status-line write,
`WriteHeader` with the status pending at that moment. For `JSON`, `XML`,
`String`, `Blob` and `Stream`, and for `Result` when the configured encoder
calls no `WriteHeader` on the buffer before its first `Write`, that status is
the last element of `[code, c1, ..., cn]`; when the encoder of `Result` does
call `WriteHeader` before its first `Write`, it is the code of the last such
call. -/
theorem first_write_carries_last_code (jsonEncode xmlEncode : GoValue → WriterProg)
    (c0 : wrapper) (world : World) (sink : SinkId) (req : Option Request) (code : Int)
    (cs : List Int) (op : WriteOp) :
    ∃ (c1 : wrapper) (err : Option GoError) (c2 : wrapper) (evs : List Event),
      setStatusCodes (.wrapperCtx (c0.Reset world (some sink) req).1)
        (c0.Reset world (some sink) req).2 cs = (.wrapperCtx c1, world) ∧
      c1.perform jsonEncode xmlEncode world code op = some (err, c2, world.extend evs) ∧
      (evs.any Event.isWrite = true →
        FirstWriteCarries sink (op.statusAtFirstWrite c0.router.srv.enc req
          ((code :: cs).getLast (List.cons_ne_nil code cs))) evs) ∧
      ((∀ v, op ≠ WriteOp.Result v) → evs.any Event.isWrite = true →
        FirstWriteCarries sink ((code :: cs).getLast (List.cons_ne_nil code cs)) evs) ∧
      (op.encoderKeepsStatus c0.router.srv.enc req → evs.any Event.isWrite = true →
        FirstWriteCarries sink ((code :: cs).getLast (List.cons_ne_nil code cs)) evs) := by
  obtain ⟨err, c2, evs, h, h1⟩ := perform_status jsonEncode xmlEncode
    { (c0.Reset world (some sink) req).1 with
      customerOperations := (c0.Reset world (some sink) req).1.customerOperations ++
        cs.map customerOperation.statusOverride } world sink rfl code op
  have hfc : finalCode code ((c0.Reset world (some sink) req).1.customerOperations ++
      cs.map customerOperation.statusOverride) =
      (code :: cs).getLast (List.cons_ne_nil code cs) := finalCode_overrides code cs
  simp only [hfc] at h1
  have h2 : evs.any Event.isWrite = true →
      FirstWriteCarries sink (op.statusAtFirstWrite c0.router.srv.enc req
        ((code :: cs).getLast (List.cons_ne_nil code cs))) evs := h1
  refine ⟨_, err, c2, evs, setStatusCodes_wrapper cs _ world, h, h2, ?_, ?_⟩
  · intro hop hany
    have h3 := h2 hany
    cases op with
    | Result v => exact absurd rfl (hop v)
    | JSON v => exact h3
    | XML v => exact h3
    | String text => exact h3
    | Blob contentType data => exact h3
    | Stream contentType rd => exact h3
  · intro henc hany
    have h3 := h2 hany
    rw [encoderKeepsStatus_statusAtFirstWrite _ _ _ op henc] at h3
    exact h3

/-- C2, as stated, fails: after `rest(sink)` two `Write` calls on the response
buffer make the sink receive `WriteHeader(200)` twice, once before each body
write. -/
theorem two_writes_send_two_status_lines :
    ((responseWriter.rest ⟨0, none⟩ (some 0)).calls world0 [.Write [97], .Write [98]]).map
        (fun r => r.2.trace) =
      some [.writeHeader 0 200, .write 0 [97], .writeHeader 0 200, .write 0 [98]] ∧
    ((responseWriter.rest ⟨0, none⟩ (some 0)).calls world0 [.Write [97], .Write [98]]).map
        (fun r => (statusCodes 0 r.2.trace).length) = some 2 := by
  decide

/-- C2, amended: after `rest(sink)`, every sequence of calls on the response
buffer returns, and every `Write` among them reaches the sink as one
`WriteHeader` with the status pending at that moment followed by one `Write` of
the data; so the sink receives as many status-line writes as the buffer
receives `Write` calls. -/
theorem every_write_sends_status_line (w : responseWriter) (world : World) (sink : SinkId)
    (calls : List BufferCall) :
    ∃ w1, (w.rest (some sink)).calls world calls =
        some (w1, world.extend (bufferEvents sink StatusOK calls)) ∧
      (statusCodes sink (bufferEvents sink StatusOK calls)).length =
        (calls.filter BufferCall.isWrite).length := by
  obtain ⟨w1, h⟩ := calls_bound calls (w.rest (some sink)) world sink rfl
  exact ⟨w1, h, statusCodes_bufferEvents calls sink StatusOK⟩

/-- C3, as stated, fails: after `Reset`, `String(200, "a")` sends status 200
with its body; `SetStatusCode(ctx, 500)` and a second `String(200, "b")` then
make the sink receive `WriteHeader(500)`. -/
theorem later_override_reaches_sink :
    (ctx0.calls rawEncode rawEncode world0
      [.Reset (some 0) (some req0), .write 200 (.String "a"), .SetStatusCode 500,
        .write 200 (.String "b")]).map (fun r => statusCodes 0 r.2.trace) =
      some [200, 500] := by
  decide

/-- C3, amended: in every state of a bound context, also after body writes,
`SetStatusCode(ctx, code1)` itself makes no call on the sink, and the next
write operation returns and, when it writes a body chunk, sends a status line
again right before its first body write, with the status pending at that
moment: `code1` for `JSON`, `XML`, `String`, `Blob` and `Stream`, and for
`Result` when the configured encoder calls no `WriteHeader` on the buffer
before its first `Write`; the code of the last such call of the encoder
otherwise. -/
theorem later_override_carried_by_next_write (jsonEncode xmlEncode : GoValue → WriterProg)
    (c : wrapper) (world : World) (sink : SinkId) (hw : c.w.w = some sink) (code1 code : Int)
    (op : WriteOp) :
    ∃ (c1 : wrapper) (err : Option GoError) (c2 : wrapper) (evs : List Event),
      SetStatusCode (.wrapperCtx c) world code1 = (.wrapperCtx c1, world) ∧
      c1.perform jsonEncode xmlEncode world code op = some (err, c2, world.extend evs) ∧
      (evs.any Event.isWrite = true →
        FirstWriteCarries sink (op.statusAtFirstWrite c.router.srv.enc c.req code1) evs) ∧
      ((∀ v, op ≠ WriteOp.Result v) → evs.any Event.isWrite = true →
        FirstWriteCarries sink code1 evs) ∧
      (op.encoderKeepsStatus c.router.srv.enc c.req → evs.any Event.isWrite = true →
        FirstWriteCarries sink code1 evs) := by
  obtain ⟨err, c2, evs, h, h1⟩ := perform_status jsonEncode xmlEncode
    { c with customerOperations :=
        c.customerOperations ++ [customerOperation.statusOverride code1] } world sink hw code op
  simp only [finalCode_append_override] at h1
  have h2 : evs.any Event.isWrite = true →
      FirstWriteCarries sink (op.statusAtFirstWrite c.router.srv.enc c.req code1) evs := h1
  refine ⟨_, err, c2, evs, rfl, h, h2, ?_, ?_⟩
  · intro hop hany
    have h3 := h2 hany
    cases op with
    | Result v => exact absurd rfl (hop v)
    | JSON v => exact h3
    | XML v => exact h3
    | String text => exact h3
    | Blob contentType data => exact h3
    | Stream contentType rd => exact h3
  · intro henc hany
    have h3 := h2 hany
    rw [encoderKeepsStatus_statusAtFirstWrite _ _ _ op henc] at h3
    exact h3

/-- C3 amended, on a sample: after `Reset` and `String(200, "a")`, the calls
`SetStatusCode(ctx, 500)` and `Result(200, v)` with an encoder that sets the
status to 418 itself: the sink, which received 200 first, now receives 418. -/
theorem later_override_carried_by_next_write_witness :
    (ctx1.Reset world0 (some 0) (some req0)).1.w.w = some 0 ∧
    (ctx1.calls rawEncode rawEncode world0
      [.Reset (some 0) (some req0), .write 200 (.String "a"), .SetStatusCode 500,
        .write 200 (.Result .null)]).map (fun r => statusCodes 0 r.2.trace) =
      some [200, 418] ∧
    ∃ (c1 : wrapper) (err : Option GoError) (c2 : wrapper) (evs : List Event),
      SetStatusCode (.wrapperCtx (ctx1.Reset world0 (some 0) (some req0)).1)
        (world0.extend [.headerSet 0 "Content-Type" "text/plain", .writeHeader 0 200,
          .write 0 [97]]) 500 =
        (.wrapperCtx c1, world0.extend [.headerSet 0 "Content-Type" "text/plain",
          .writeHeader 0 200, .write 0 [97]]) ∧
      c1.perform rawEncode rawEncode (world0.extend [.headerSet 0 "Content-Type" "text/plain",
          .writeHeader 0 200, .write 0 [97]]) 200 (.Result .null) =
        some (err, c2, (world0.extend [.headerSet 0 "Content-Type" "text/plain",
          .writeHeader 0 200, .write 0 [97]]).extend evs) ∧
      (evs.any Event.isWrite = true → FirstWriteCarries 0 418 evs) := by
  refine ⟨rfl, by decide, ?_⟩
  obtain ⟨c1, err, c2, evs, h1, h2, h3, _⟩ :=
    later_override_carried_by_next_write rawEncode rawEncode
      (ctx1.Reset world0 (some 0) (some req0)).1
      (world0.extend [.headerSet 0 "Content-Type" "text/plain", .writeHeader 0 200,
        .write 0 [97]]) 0 rfl 500 200 (.Result .null)
  exact ⟨c1, err, c2, evs, h1, h2, h3⟩


/-- C4: `Returns(v, nil)` does not replay the queue. After `Reset` and
`SetStatusCode(ctx, 201)`, `Returns(v, nil)` leaves the override in the queue
and the sink receives status 200 with the first body write, where
`Result(200, v)` on the same history makes it receive 201. -/
theorem returns_skips_queued_override :
    (ctx0.calls rawEncode rawEncode world0
      [.Reset (some 0) (some req0), .SetStatusCode 201, .Returns (.bytes [1]) none]).map
        (fun r => (r.1.customerOperations, statusCodes 0 r.2.trace)) =
      some ([.statusOverride 201], [200]) ∧
    (ctx0.calls rawEncode rawEncode world0
      [.Reset (some 0) (some req0), .SetStatusCode 201, .write 200 (.Result (.bytes [1]))]).map
        (fun r => (r.1.customerOperations, statusCodes 0 r.2.trace)) =
      some ([.statusOverride 201], [201]) := by
  decide

/-- C5: `Returns(v, err)` with a non-nil `err` returns `err` and leaves the
context and the world as they were, so no encoder is invoked and no sink is
called. `Returns(v, nil)` is the configured encoder run once on the response
buffer with the request of the context and `v`: it returns what the encoder
returns, and on a bound context the encoder is invoked exactly once, with
`(c.req, v)`. -/
theorem returns_error_or_encodes_once (c : wrapper) (world : World) (v : GoValue) :
    (∀ e : GoError, c.Returns world v (some e) = some (some e, c, world)) ∧
    c.Returns world v none =
      ((c.router.srv.enc c.req v).run c.w (world.extend [Event.encode c.req v])).map
        (fun r => (r.1, { c with w := r.2.1 }, r.2.2)) ∧
    (∀ sink, c.w.w = some sink →
      ∃ (err : Option GoError) (w1 : responseWriter) (evs : List Event),
        (c.router.srv.enc c.req v).run c.w (world.extend [Event.encode c.req v]) =
          some (err, w1, world.extend (Event.encode c.req v :: evs)) ∧
        c.Returns world v none =
          some (err, { c with w := w1 }, world.extend (Event.encode c.req v :: evs)) ∧
        evs.any Event.isEncode = false) := by
  refine ⟨fun e => rfl, ?_, ?_⟩
  · simp only [wrapper.Returns, log_eq_extend]
    cases (c.router.srv.enc c.req v).run c.w (world.extend [Event.encode c.req v]) <;> rfl
  · intro sink hw
    obtain ⟨err, w1, evs, h, _, hne⟩ := respProg_run_bound (c.router.srv.enc c.req v)
      c.w sink hw (world.extend [Event.encode c.req v])
    simp only [extend_extend, List.singleton_append] at h
    exact ⟨err, w1, evs, h, by simp [wrapper.Returns, log_eq_extend, h], hne⟩

/-- C6: whatever the state of the context, after `Reset(res, req)` the queue
is empty, the pending status is 200, `Request()` is `req` and `Response()` is
`res`, and `Reset` makes no call on any sink. -/
theorem reset_clears_and_rebinds (c : wrapper) (world : World) (res : Option SinkId)
    (req : Option Request) :
    (c.Reset world res req).1.customerOperations = [] ∧
    (c.Reset world res req).1.w.code = 200 ∧
    (c.Reset world res req).1.Request = req ∧
    (c.Reset world res req).1.Response = res ∧
    (c.Reset world res req).1.router = c.router ∧
    (c.Reset world res req).2 = world :=
  ⟨rfl, rfl, rfl, rfl, rfl, rfl⟩

/-- C7: on a context that is not a `*wrapper` (the background context, or a
context derived by `WithValue`, also from a wrapper) `SetStatusCode` changes
nothing; on a wrapper it appends one closure at the end of the queue, which
when run sets the pending status to `code`, and leaves the earlier entries,
the response buffer, the request and the world as they were. -/
theorem setStatusCode_queues_or_ignores (world : World) (code : Int) :
    SetStatusCode .background world code = (.background, world) ∧
    (∀ (parent : GoContext) (key val : GoValue),
      SetStatusCode (.valueCtx parent key val) world code = (.valueCtx parent key val, world)) ∧
    (∀ c : wrapper, ∃ c1 : wrapper,
      SetStatusCode (.wrapperCtx c) world code = (.wrapperCtx c1, world) ∧
      c1.customerOperations = c.customerOperations ++ [customerOperation.statusOverride code] ∧
      c1.w = c.w ∧ c1.req = c.req ∧ c1.router = c.router) ∧
    (∀ c : wrapper, ((customerOperation.statusOverride code).run c).w.code = code ∧
      ((customerOperation.statusOverride code).run c).w.w = c.w.w ∧
      ((customerOperation.statusOverride code).run c).customerOperations =
        c.customerOperations) :=
  ⟨rfl, fun _ _ _ => rfl, fun _ => ⟨_, rfl, rfl, rfl, rfl, rfl⟩, fun _ => ⟨rfl, rfl, rfl⟩⟩

/-- C8: on a bound context every write operation returns and leaves the queue
as it found it; after any history of `SetStatusCode`, write operations and
`Returns` without a `Reset` the queue is the former queue followed by the
overrides queued in the history, so every later write operation replays them
all; and `Reset` empties the queue. -/
theorem queue_kept_until_reset (jsonEncode xmlEncode : GoValue → WriterProg) (c : wrapper)
    (world : World) (sink : SinkId) (hw : c.w.w = some sink) (history : List Call)
    (hno : history.any Call.isReset = false) :
    (∀ (code : Int) (op : WriteOp), ∃ (err : Option GoError) (c1 : wrapper) (world1 : World),
      c.perform jsonEncode xmlEncode world code op = some (err, c1, world1) ∧
      c1.customerOperations = c.customerOperations) ∧
    ∃ (c1 : wrapper) (world1 : World),
      c.calls jsonEncode xmlEncode world history = some (c1, world1) ∧
      c1.customerOperations = c.customerOperations ++ Call.overrides history ∧
      (∀ (code : Int) (op : WriteOp), op.encoderKeepsStatus c1.router.srv.enc c1.req →
        ∃ (err : Option GoError) (c2 : wrapper) (evs : List Event),
          c1.perform jsonEncode xmlEncode world1 code op = some (err, c2, world1.extend evs) ∧
          c2.customerOperations = c1.customerOperations ∧
          (evs.any Event.isWrite = true → FirstWriteCarries sink
            (finalCode code (c.customerOperations ++ Call.overrides history)) evs)) ∧
      (∀ (res : Option SinkId) (req : Option Request),
        (c1.Reset world1 res req).1.customerOperations = []) := by
  constructor
  · intro code op
    obtain ⟨err, c1, evs, h, hq, _⟩ := perform_shape jsonEncode xmlEncode c world sink hw code op
    exact ⟨err, c1, _, h, hq⟩
  · obtain ⟨c1, world1, h, hq, hb, _, _⟩ :=
      calls_shape jsonEncode xmlEncode history hno c world sink hw
    refine ⟨c1, world1, h, hq, ?_, fun _ _ => rfl⟩
    intro code op henc
    obtain ⟨err, c2, evs, h2, hq2, _, _, _, h3⟩ :=
      perform_shape jsonEncode xmlEncode c1 world1 sink hb code op
    refine ⟨err, c2, evs, h2, hq2, ?_⟩
    intro hany
    rw [← hq]
    exact h3 henc hany

/-- C8, on a sample: after `Reset`, the history `SetStatusCode(ctx, 404)`,
`String(200, "a")`, `Returns(v, nil)`, `SetStatusCode(ctx, 201)`. -/
theorem queue_kept_until_reset_witness :
    (ctx0.Reset world0 (some 0) (some req0)).1.w.w = some 0 ∧
    List.any [Call.SetStatusCode 404, .write 200 (.String "a"), .Returns (.bytes [1]) none,
      .SetStatusCode 201] Call.isReset = false ∧
    ((ctx0.Reset world0 (some 0) (some req0)).1.calls rawEncode rawEncode world0
      [Call.SetStatusCode 404, .write 200 (.String "a"), .Returns (.bytes [1]) none,
        .SetStatusCode 201]).map (fun r => r.1.customerOperations) =
      some [.statusOverride 404, .statusOverride 201] :=
  ⟨rfl, by decide, by
    obtain ⟨_, c1, world1, h, hq, _⟩ := queue_kept_until_reset rawEncode rawEncode
      (ctx0.Reset world0 (some 0) (some req0)).1 world0 0 rfl
      [Call.SetStatusCode 404, .write 200 (.String "a"), .Returns (.bytes [1]) none,
        .SetStatusCode 201] (by decide)
    rw [h, Option.map_some', hq]
    rfl⟩

/-- C9: on a context without request `Deadline()` is `(time.Time{}, false)`,
`Done()` is the nil channel, `Err()` is `context.Canceled`, whose text is
"context canceled", and `Value(key)` is nil; on a context bound to the request
`r` each of the four is what the context of `r` returns. -/
theorem cancellation_defaults_and_delegation (c : wrapper) (r : Request) (key : GoValue) :
    (wrapper.Deadline { c with req := none } = (GoTime.zero, false) ∧
      wrapper.Done { c with req := none } = none ∧
      wrapper.Err { c with req := none } = some Canceled ∧
      Canceled.msg = "context canceled" ∧
      wrapper.Value { c with req := none } key = none) ∧
    (wrapper.Deadline { c with req := some r } = r.Context.Deadline ∧
      wrapper.Done { c with req := some r } = r.Context.Done ∧
      wrapper.Err { c with req := some r } = r.Context.Err ∧
      wrapper.Value { c with req := some r } key = r.Context.Value key) :=
  ⟨⟨rfl, rfl, rfl, rfl, rfl⟩, rfl, rfl, rfl, rfl⟩

/-- C10: on a context bound to a request `r`, `Form()` returns a mapping and
no error: the empty mapping when `ParseForm` fails on `r`, and the field `Form`
of the request as `ParseForm` leaves it when it succeeds. -/
theorem form_returns_mapping (ParseForm : Request → Request × Option GoError) (c : wrapper)
    (r : Request) :
    ∃ (vals : Values) (c1 : wrapper),
      wrapper.Form ParseForm { c with req := some r } = some (vals, c1) ∧
      c1.req = some (ParseForm r).1 ∧
      ((ParseForm r).2 ≠ none → vals = Values.empty ∧ ∀ k, vals.lookup k = none) ∧
      ((ParseForm r).2 = none → vals = (ParseForm r).1.Form) := by
  rcases hp : ParseForm r with ⟨r1, _ | e⟩
  · exact ⟨r1.Form, { c with req := some r1 }, by simp [wrapper.Form, hp], rfl,
      by simp, by simp⟩
  · exact ⟨Values.empty, { c with req := some r1 }, by simp [wrapper.Form, hp], rfl,
      by simp [Values.empty], by simp⟩


/-- C11: for path captures `m` with distinct names, as a Go map has them,
`Vars()` returns a mapping that holds under every name `k` of `m` the
one-element list `[m(k)]` and nothing under any other name: it has the keys of
`m`, each once. For an empty `m` it is the empty mapping. -/
theorem vars_maps_each_capture_to_singleton (c : wrapper) (r : Request)
    (hm : (keysOf r.muxVars).Nodup) :
    ∃ vars : Values, wrapper.Vars { c with req := some r } = some vars ∧
      (∀ k : GoString, vars.lookup k = (r.muxVars.lookup k).map fun v => [v]) ∧
      (keysOf vars).Perm (keysOf r.muxVars) ∧ (keysOf vars).Nodup ∧
      (r.muxVars = [] → vars = Values.empty) := by
  have hv : r.muxVars.foldl (fun vars kv => Values.set vars kv.1 [kv.2]) Values.empty =
      (r.muxVars.map fun kv => (kv.1, [kv.2])).reverse := by
    rw [foldl_set_fresh r.muxVars Values.empty hm (by simp [keysOf, Values.empty])]
    exact List.append_nil _
  have hkeys : keysOf ((r.muxVars.map fun kv => (kv.1, [kv.2])).reverse) =
      (keysOf r.muxVars).reverse := by
    simp [keysOf, List.map_reverse, Function.comp_def]
  have hperm : (keysOf ((r.muxVars.map fun kv => (kv.1, [kv.2])).reverse)).Perm
      (keysOf r.muxVars) := by
    rw [hkeys]
    exact List.reverse_perm _
  have hnodup : (keysOf ((r.muxVars.map fun kv => (kv.1, [kv.2])).reverse)).Nodup :=
    hperm.nodup_iff.mpr hm
  refine ⟨_, by simp only [wrapper.Vars]; rw [hv], ?_, hperm, hnodup, ?_⟩
  · intro k
    cases hl : r.muxVars.lookup k with
    | none =>
      have hnot : k ∉ keysOf r.muxVars := by
        intro hk
        obtain ⟨p, hp, hpk⟩ := List.mem_map.mp hk
        have := lookup_of_mem r.muxVars hm p.1 p.2 hp
        rw [hpk, hl] at this
        cases this
      exact lookup_of_not_mem _ k (fun hk => hnot (hperm.mem_iff.mp hk))
    | some v =>
      have hmem := mem_of_lookup r.muxVars k v hl
      apply lookup_of_mem _ hnodup
      simp only [List.mem_reverse, List.mem_map]
      exact ⟨(k, v), hmem, rfl⟩
  · intro he
    simp [he, Values.empty]

/-- C11, on a sample: the captures `id = 42` and `name = x`. -/
theorem vars_maps_each_capture_to_singleton_witness :
    (keysOf ({ req0 with muxVars := [("id", "42"), ("name", "x")] } : Request).muxVars).Nodup ∧
    ∃ vars : Values,
      wrapper.Vars { ctx0 with req := some { req0 with muxVars := [("id", "42"), ("name", "x")] } } =
        some vars ∧
      vars.lookup "id" = some ["42"] ∧ vars.lookup "name" = some ["x"] ∧
      vars.lookup "other" = none := by
  have hm : (keysOf ({ req0 with muxVars := [("id", "42"), ("name", "x")] } : Request).muxVars).Nodup := by
    decide
  obtain ⟨vars, h, hl, _⟩ := vars_maps_each_capture_to_singleton ctx0
    { req0 with muxVars := [("id", "42"), ("name", "x")] } hm
  exact ⟨hm, vars, h, by rw [hl]; rfl, by rw [hl]; rfl, by rw [hl]; rfl⟩


/-- C12: on a context just `Reset` to `sink`, with a reader that delivers its
input without error (its reads end with `io.EOF`, or its `WriteTo`, when it
has one, returns nil) and a sink that accepts every write,
`Stream(200, contentType, rd)` returns nil; the sink first gets its
`Content-Type` header set to `contentType`, then only status-line and body
writes; the body it receives is the input of the reader byte for byte; the
status of the response is 200: every status line the sink receives carries
200, when the input is not empty the first body write comes right after
`WriteHeader(200)`, and when it is empty no status line is written and the
status stays the 200 that a response has by default. -/
theorem stream_copies_input (c0 : wrapper) (world : World) (sink : SinkId)
    (req : Option Request) (contentType : GoString) (rd : Reader)
    (hrd : rd.completes) (hsink : world.accepts sink) :
    ∃ (c1 : wrapper) (evs : List Event),
      (c0.Reset world (some sink) req).1.Stream world 200 contentType rd =
        some (none, c1,
          world.extend (Event.headerSet sink "Content-Type" contentType :: evs)) ∧
      bodyBytes sink evs = rd.input ∧
      (∀ e ∈ evs, (e.isWriteHeader || e.isWrite) = true) ∧
      responseStatus sink evs = 200 ∧
      (∀ code ∈ statusCodes sink evs, code = 200) ∧
      (rd.input ≠ [] → FirstWriteCarries sink 200 evs) ∧
      c1.w.code = 200 := by
  have hs := stream_bound (c0.Reset world (some sink) req).1 world sink rfl 200 contentType rd
  have hf : finalCode 200 (c0.Reset world (some sink) req).1.customerOperations = 200 := rfl
  rw [hf] at hs
  obtain ⟨chunks, h, hc, hne⟩ := ioCopy_accepted rd hrd
    { code := 200, w := some sink } sink rfl
    (world.extend [Event.headerSet sink "Content-Type" contentType]) (fun t data => hsink t data)
  refine ⟨{ (c0.Reset world (some sink) req).1 with w := { code := 200, w := some sink } },
    chunks.flatMap fun d => [Event.writeHeader sink 200, Event.write sink d], ?_,
    ?_, writerEvents_statusAndBody sink 200 chunks, ?_, ?_, ?_, rfl⟩
  · rw [hs, h]
    simp
  · rw [writerEvents_body, hc]
  · unfold responseStatus
    rw [writerEvents_statusCodes]
    cases chunks <;> rfl
  · intro code hcode
    rw [writerEvents_statusCodes] at hcode
    exact (List.mem_replicate.mp hcode).2
  · intro hin
    cases chunks with
    | nil => exact absurd rfl (hne hin)
    | cons d rest =>
      have hd : (d :: rest).flatMap (fun d => [Event.writeHeader sink 200, Event.write sink d]) =
          Event.writeHeader sink 200 :: Event.write sink d ::
            rest.flatMap (fun d => [Event.writeHeader sink 200, Event.write sink d]) := by
        rw [List.flatMap_cons]
        rfl
      rw [hd]
      exact firstWriteCarries_head sink 200 d _

/-- C12, on a sample: the input 1, 2, 3 read in two chunks, the second one
together with `io.EOF`. -/
theorem stream_copies_input_witness :
    Reader.completes (Reader.mk [([1, 2], none), ([], none), ([3], some EOF)] none) ∧
    world0.accepts 0 ∧
    ((ctx0.Reset world0 (some 0) (some req0)).1.Stream world0 200 "application/octet-stream"
      (Reader.mk [([1, 2], none), ([], none), ([3], some EOF)] none)).map
        (fun r => (r.1, bodyBytes 0 r.2.2.trace, statusCodes 0 r.2.2.trace)) =
      some (none, [1, 2, 3], [200, 200]) ∧
    ∃ (c1 : wrapper) (evs : List Event),
      (ctx0.Reset world0 (some 0) (some req0)).1.Stream world0 200 "application/octet-stream"
          (Reader.mk [([1, 2], none), ([], none), ([3], some EOF)] none) =
        some (none, c1,
          world0.extend (Event.headerSet 0 "Content-Type" "application/octet-stream" :: evs)) ∧
      bodyBytes 0 evs = (Reader.mk [([1, 2], none), ([], none), ([3], some EOF)] none).input :=
  ⟨by simp [Reader.completes, readsToEOF], fun _ _ => rfl, by decide, by
    obtain ⟨c1, evs, h, hb, _⟩ := stream_copies_input ctx0 world0 0 (some req0)
      "application/octet-stream" (Reader.mk [([1, 2], none), ([], none), ([3], some EOF)] none)
      (by simp [Reader.completes, readsToEOF]) (fun _ _ => rfl)
    exact ⟨c1, evs, h, hb⟩⟩

/-- C13: on a bound context each of `JSON`, `XML`, `String`, `Blob` and
`Stream` returns, and the first call the sink receives from it is the setting
of `Content-Type`, to "application/json", "application/xml", "text/plain" and,
for `Blob` and `Stream`, the content type of the caller; every later call is a
status-line or body write, so that, whatever the queue holds, nothing sets a
header again. -/
theorem content_type_set_first (jsonEncode xmlEncode : GoValue → WriterProg) (c : wrapper)
    (world : World) (sink : SinkId) (hw : c.w.w = some sink) (code : Int) :
    (∀ v : GoValue, ∃ (err : Option GoError) (c1 : wrapper) (evs : List Event),
      c.JSON jsonEncode world code v = some (err, c1,
        world.extend (Event.headerSet sink "Content-Type" "application/json" :: evs)) ∧
      ∀ e ∈ evs, (e.isWriteHeader || e.isWrite) = true) ∧
    (∀ v : GoValue, ∃ (err : Option GoError) (c1 : wrapper) (evs : List Event),
      c.XML xmlEncode world code v = some (err, c1,
        world.extend (Event.headerSet sink "Content-Type" "application/xml" :: evs)) ∧
      ∀ e ∈ evs, (e.isWriteHeader || e.isWrite) = true) ∧
    (∀ text : GoString, ∃ (err : Option GoError) (c1 : wrapper) (evs : List Event),
      c.String world code text = some (err, c1,
        world.extend (Event.headerSet sink "Content-Type" "text/plain" :: evs)) ∧
      ∀ e ∈ evs, (e.isWriteHeader || e.isWrite) = true) ∧
    (∀ (contentType : GoString) (data : Bytes),
      ∃ (err : Option GoError) (c1 : wrapper) (evs : List Event),
      c.Blob world code contentType data = some (err, c1,
        world.extend (Event.headerSet sink "Content-Type" contentType :: evs)) ∧
      ∀ e ∈ evs, (e.isWriteHeader || e.isWrite) = true) ∧
    (∀ (contentType : GoString) (rd : Reader),
      ∃ (err : Option GoError) (c1 : wrapper) (evs : List Event),
      c.Stream world code contentType rd = some (err, c1,
        world.extend (Event.headerSet sink "Content-Type" contentType :: evs)) ∧
      ∀ e ∈ evs, (e.isWriteHeader || e.isWrite) = true) := by
  have hw2 : ({ code := finalCode code c.customerOperations, w := c.w.w } : responseWriter).w =
      some sink := hw
  refine ⟨?_, ?_, ?_, ?_, ?_⟩
  · intro v
    obtain ⟨err, chunks, h⟩ := writerProg_run_bound (jsonEncode v) _ sink hw2
      (world.extend [Event.headerSet sink "Content-Type" "application/json"])
    exact ⟨err, { c with w := { code := finalCode code c.customerOperations, w := c.w.w } },
      chunks.flatMap fun d =>
        [Event.writeHeader sink (finalCode code c.customerOperations), Event.write sink d], by
      simp [wrapper.JSON, headerSet_bound c.w world _ _ sink hw, applyCustomerOperations_eq, h],
      writerEvents_statusAndBody sink _ chunks⟩
  · intro v
    obtain ⟨err, chunks, h⟩ := writerProg_run_bound (xmlEncode v) _ sink hw2
      (world.extend [Event.headerSet sink "Content-Type" "application/xml"])
    exact ⟨err, { c with w := { code := finalCode code c.customerOperations, w := c.w.w } },
      chunks.flatMap fun d =>
        [Event.writeHeader sink (finalCode code c.customerOperations), Event.write sink d], by
      simp [wrapper.XML, headerSet_bound c.w world _ _ sink hw, applyCustomerOperations_eq, h],
      writerEvents_statusAndBody sink _ chunks⟩
  · intro text
    exact ⟨_, _, [Event.writeHeader sink (finalCode code c.customerOperations),
      Event.write sink (bytesOf text)], string_bound c world sink hw code text,
      by simp [Event.isWriteHeader, Event.isWrite]⟩
  · intro contentType data
    exact ⟨_, _, [Event.writeHeader sink (finalCode code c.customerOperations),
      Event.write sink data], blob_bound c world sink hw code contentType data,
      by simp [Event.isWriteHeader, Event.isWrite]⟩
  · intro contentType rd
    obtain ⟨err, chunks, h⟩ := writerProg_run_bound (ioCopy rd) _ sink hw2
      (world.extend [Event.headerSet sink "Content-Type" contentType])
    exact ⟨err, { c with w := { code := finalCode code c.customerOperations, w := c.w.w } },
      chunks.flatMap fun d =>
        [Event.writeHeader sink (finalCode code c.customerOperations), Event.write sink d], by
      simp [wrapper.Stream, headerSet_bound c.w world _ _ sink hw, applyCustomerOperations_eq, h],
      writerEvents_statusAndBody sink _ chunks⟩


/-- C13, on a sample: `JSON(200, v)` on a context just `Reset` to sink 0. -/
theorem content_type_set_first_witness :
    (ctx0.Reset world0 (some 0) (some req0)).1.w.w = some 0 ∧
    ∃ (err : Option GoError) (c1 : wrapper) (evs : List Event),
      (ctx0.Reset world0 (some 0) (some req0)).1.JSON rawEncode world0 200 (.bytes [1]) =
        some (err, c1,
          world0.extend (Event.headerSet 0 "Content-Type" "application/json" :: evs)) ∧
      ∀ e ∈ evs, (e.isWriteHeader || e.isWrite) = true :=
  ⟨rfl, (content_type_set_first rawEncode rawEncode
    (ctx0.Reset world0 (some 0) (some req0)).1 world0 0 rfl 200).1 (.bytes [1])⟩

/-- C14: on a bound context `String(code, text)` and `Blob(code, ct, data)`
make one body write on the sink, of the whole text or data, after setting the
content type and sending the status, and return the error of that write as the
sink gave it, nil when the sink gave none. `Stream` returns the error of the
copy as `io.Copy` gave it, and nil when the reader delivers its input without
error and the sink accepts every write. -/
theorem write_errors_returned (c : wrapper) (world : World) (sink : SinkId)
    (hw : c.w.w = some sink) (code : Int) :
    (∀ text : GoString, ∃ c1 : wrapper,
      c.String world code text =
        some ((world.sinkWrite sink (world.trace ++
            [Event.headerSet sink "Content-Type" "text/plain",
              Event.writeHeader sink (finalCode code c.customerOperations)]) (bytesOf text)).2,
          c1,
          world.extend [Event.headerSet sink "Content-Type" "text/plain",
            Event.writeHeader sink (finalCode code c.customerOperations),
            Event.write sink (bytesOf text)])) ∧
    (∀ (contentType : GoString) (data : Bytes), ∃ c1 : wrapper,
      c.Blob world code contentType data =
        some ((world.sinkWrite sink (world.trace ++
            [Event.headerSet sink "Content-Type" contentType,
              Event.writeHeader sink (finalCode code c.customerOperations)]) data).2,
          c1,
          world.extend [Event.headerSet sink "Content-Type" contentType,
            Event.writeHeader sink (finalCode code c.customerOperations),
            Event.write sink data])) ∧
    (∀ (contentType : GoString) (rd : Reader),
      ∃ (err : Option GoError) (c1 : wrapper) (evs : List Event),
        (ioCopy rd).run { code := finalCode code c.customerOperations, w := some sink }
            (world.extend [Event.headerSet sink "Content-Type" contentType]) =
          some (err, world.extend (Event.headerSet sink "Content-Type" contentType :: evs)) ∧
        c.Stream world code contentType rd =
          some (err, c1,
            world.extend (Event.headerSet sink "Content-Type" contentType :: evs)) ∧
        (rd.completes → world.accepts sink → err = none)) := by
  refine ⟨fun text => ⟨_, string_bound c world sink hw code text⟩,
    fun contentType data => ⟨_, blob_bound c world sink hw code contentType data⟩, ?_⟩
  intro contentType rd
  obtain ⟨err, chunks, h⟩ := writerProg_run_bound (ioCopy rd)
    { code := finalCode code c.customerOperations, w := some sink } sink rfl
    (world.extend [Event.headerSet sink "Content-Type" contentType])
  have h2 := h
  simp only [extend_extend, List.singleton_append] at h2
  refine ⟨err, { c with w := { code := finalCode code c.customerOperations, w := some sink } },
    chunks.flatMap fun d =>
      [Event.writeHeader sink (finalCode code c.customerOperations), Event.write sink d],
    h2, ?_, ?_⟩
  · rw [stream_bound c world sink hw code contentType rd, h2]
    rfl
  · intro hr ha
    obtain ⟨chunks2, h3, _⟩ := ioCopy_accepted rd hr
      { code := finalCode code c.customerOperations, w := some sink } sink rfl
      (world.extend [Event.headerSet sink "Content-Type" contentType]) (fun t data => ha t data)
    rw [h3] at h
    have h4 := congrArg (fun o => o.map Prod.fst) h
    simpa using h4.symm

/-- C14, on a sample: `Blob` on a sink that fails every write with the error
"closed" returns that error. -/
theorem write_errors_returned_witness :
    (ctx0.Reset world0 (some 0) (some req0)).1.w.w = some 0 ∧
    ((ctx0.Reset world0 (some 0) (some req0)).1.Blob
      { world0 with sinkWrite := fun _ _ _ => (0, some ⟨"closed"⟩) } 200 "text/plain"
        [1, 2]).map (fun r => (r.1, r.2.2.trace)) =
      some (some ⟨"closed"⟩, [.headerSet 0 "Content-Type" "text/plain", .writeHeader 0 200,
        .write 0 [1, 2]]) := by
  refine ⟨rfl, ?_⟩
  obtain ⟨c1, h⟩ := (write_errors_returned (ctx0.Reset world0 (some 0) (some req0)).1
    { world0 with sinkWrite := fun _ _ _ => (0, some ⟨"closed"⟩) } 0 rfl 200).2.1
    "text/plain" [1, 2]
  rw [h]
  rfl

/-- C15: the buffer methods `rest` and `WriteHeader` only change the buffer:
after `rest(sink)` the calls `WriteHeader(c1)`, ..., `WriteHeader(cn)` leave the
world as it was, and the first `Write(data)` then makes the sink receive
`WriteHeader` with the last of `[200, c1, ..., cn]` followed by `Write(data)`,
and returns what the sink answers to that `Write`. -/
theorem buffer_last_status_wins (w : responseWriter) (world : World) (sink : SinkId)
    (cs : List Int) (data : Bytes) :
    (w.rest (some sink)).w = some sink ∧ (w.rest (some sink)).code = 200 ∧
    ∃ w1 : responseWriter,
      (w.rest (some sink)).calls world (cs.map BufferCall.WriteHeader) = some (w1, world) ∧
      w1.Write world data =
        some (world.sinkWrite sink (world.trace ++
            [Event.writeHeader sink ((200 :: cs).getLast (List.cons_ne_nil _ _))]) data,
          world.extend [Event.writeHeader sink ((200 :: cs).getLast (List.cons_ne_nil _ _)),
            Event.write sink data]) := by
  refine ⟨rfl, rfl, _, calls_writeHeaders cs (w.rest (some sink)) world, ?_⟩
  exact Write_bound _ world data sink rfl

/-- C16, as stated, fails: `io.Copy` hands the copy to the method `WriteTo` of
a reader that has one, and a reader without bytes whose `WriteTo` writes an
empty chunk makes `Stream(404, ct, rd)` send `WriteHeader(404)` and
`Write([])` to the sink; and a reader without bytes whose `Read` fails makes
`Stream` return that error and not nil. -/
theorem zero_byte_reader_reaches_sink :
    emptyChunkReader.input = [] ∧
    ((ctx0.Reset world0 (some 0) (some req0)).1.Stream world0 404 "text/csv"
      emptyChunkReader).map (fun r => (r.1, r.2.2.trace)) =
      some (none, [.headerSet 0 "Content-Type" "text/csv", .writeHeader 0 404, .write 0 []]) ∧
    failingReader.input = [] ∧
    ((ctx0.Reset world0 (some 0) (some req0)).1.Stream world0 404 "text/csv"
      failingReader).map (fun r => (r.1, r.2.2.trace)) =
      some (some ⟨"connection reset"⟩, [.headerSet 0 "Content-Type" "text/csv"]) := by
  decide

/-- C16, amended: on a bound context, whatever the code, the content type and
the queue, `Stream` with a reader that gives the copy nothing to write (its
reads deliver no byte and end with `io.EOF`, or its `WriteTo` returns nil
without calling `Write`) returns nil and makes one call on the sink, the
setting of `Content-Type`: no `WriteHeader` and no `Write`. The code, with the
queue replayed, is left pending in the buffer. -/
theorem empty_stream_sends_no_status (c : wrapper) (world : World) (sink : SinkId)
    (hw : c.w.w = some sink) (code : Int) (contentType : GoString) (rd : Reader)
    (hs : rd.silent) :
    ∃ c1 : wrapper,
      c.Stream world code contentType rd =
        some (none, c1, world.extend [Event.headerSet sink "Content-Type" contentType]) ∧
      c1.w.code = finalCode code c.customerOperations ∧ c1.w.w = some sink ∧
      c1.customerOperations = c.customerOperations ∧ c1.req = c.req ∧
      c1.router = c.router := by
  refine ⟨{ c with w := { code := finalCode code c.customerOperations, w := some sink } },
    ?_, rfl, rfl, rfl, rfl, rfl⟩
  rw [stream_bound c world sink hw code contentType rd, ioCopy_silent rd hs]
  rfl

/-- C16 amended, on a sample: `Stream(404, ct, rd)` after
`SetStatusCode(ctx, 500)`, with a reader without `WriteTo` whose first read
returns `(0, nil)` and second `(0, io.EOF)`. -/
theorem empty_stream_sends_no_status_witness :
    (ctx0.Reset world0 (some 0) (some req0)).1.w.w = some 0 ∧
    Reader.silent (Reader.mk [([], none), ([], some EOF)] none) ∧
    ((ctx0.calls rawEncode rawEncode world0
      [.Reset (some 0) (some req0), .SetStatusCode 500,
        .write 404 (.Stream "text/csv" (Reader.mk [([], none), ([], some EOF)] none))]).map
        fun r => (r.1.w, r.2.trace)) =
      some ({ code := 500, w := some 0 }, [.headerSet 0 "Content-Type" "text/csv"]) ∧
    ∃ c1 : wrapper,
      (ctx0.Reset world0 (some 0) (some req0)).1.Stream world0 404 "text/csv"
          (Reader.mk [([], none), ([], some EOF)] none) =
        some (none, c1, world0.extend [Event.headerSet 0 "Content-Type" "text/csv"]) := by
  have hs : Reader.silent (Reader.mk [([], none), ([], some EOF)] none) :=
    ⟨by simp [readsToEOF], rfl⟩
  refine ⟨rfl, hs, by decide, ?_⟩
  obtain ⟨c1, h, _⟩ := empty_stream_sends_no_status (ctx0.Reset world0 (some 0) (some req0)).1
    world0 0 rfl 404 "text/csv" (Reader.mk [([], none), ([], some EOF)] none) hs
  exact ⟨c1, h⟩


end KratosHttp
